import Mathlib

/-!
# DDLLang: rendering symbolic expressions and lowering productions to DDL text

A shallow embedding of `lib/Core/DDLLang.cpp` (`uint64ToHex`, `power`,
`DDLLang::toStringTemplate`, `DDLLang::toStringDefault`, `DDLLang::toStringExtract`,
`DDLLang::toString`, `GenHelperFunctionsInDDL`, `DDLLang::Production2DDL`, `DDLLang::dump`)
followed by theorems about it.

Conventions of the embedding:
* `std::string` is `String`; `std::to_string` on integers is decimal text.
* A call that ends in `llvm_unreachable` (or reads an argument a node does not have)
  is the result `none`; every function that can reach one returns an `Option`.
* The diagnostic stream `errs()` is not part of any returned text and is left out.
* The process-wide counter behind `Z3::index_var` is passed in and handed back explicitly.
-/

namespace DDLLang

/-! ## The expression model (the part of `z3::expr` that the renderer inspects) -/

/-- Declaration kinds (`Z3_decl_kind`) that `DDLLang::toString` names in its `switch`, plus
`Z3_OP_UNINTERPRETED` (plain variables) and `other` for every kind that only reaches `default`. -/
inductive DeclKind where
  | Z3_OP_TRUE | Z3_OP_FALSE | Z3_OP_SELECT | Z3_OP_EQ | Z3_OP_DISTINCT | Z3_OP_CONCAT
  | Z3_OP_ADD | Z3_OP_BADD | Z3_OP_SUB | Z3_OP_BSUB | Z3_OP_MUL | Z3_OP_BMUL
  | Z3_OP_DIV | Z3_OP_BSDIV_I | Z3_OP_BSDIV | Z3_OP_BUDIV_I | Z3_OP_BUDIV
  | Z3_OP_MOD | Z3_OP_REM | Z3_OP_BSMOD | Z3_OP_BSMOD_I | Z3_OP_BSREM | Z3_OP_BSREM_I
  | Z3_OP_BUREM | Z3_OP_BUREM_I
  | Z3_OP_AND | Z3_OP_OR
  | Z3_OP_GE | Z3_OP_SGEQ | Z3_OP_UGEQ
  | Z3_OP_LE | Z3_OP_SLEQ | Z3_OP_ULEQ
  | Z3_OP_GT | Z3_OP_SGT | Z3_OP_UGT
  | Z3_OP_LT | Z3_OP_SLT | Z3_OP_ULT
  | Z3_OP_NOT | Z3_OP_UMINUS | Z3_OP_EXTRACT
  | Z3_OP_UNINTERPRETED
  | other (code : Nat)
  deriving DecidableEq, Repr

/-- A declaration parameter, by `Z3_parameter_kind`; only an integer parameter carries a value
that the renderer reads (`Z3_get_decl_int_parameter`). -/
inductive Param where
  | Z3_PARAMETER_INT (value : Int)
  | Z3_PARAMETER_DOUBLE
  | Z3_PARAMETER_RATIONAL
  | Z3_PARAMETER_SYMBOL
  | Z3_PARAMETER_SORT
  | Z3_PARAMETER_AST
  | Z3_PARAMETER_FUNC_DECL
  deriving DecidableEq, Repr

/-- An expression: either a numeral with its integer value (and the name and parameters of its
declaration, read only when the value fits neither 64-bit type), or an application of a
declaration (kind, name, parameters) to ordered arguments. The field `naming` records whether
the analysis that built the node marked it as a naming equality (see `is_naming_eq`). -/
inductive Expr where
  | numeral (value : Int) (name : String) (params : List Param)
  | app (kind : DeclKind) (name : String) (params : List Param) (naming : Bool)
      (args : List Expr)

mutual
/-- Structural equality of expressions (Z3 expressions are hash-consed, so identity of
`z3::expr` values is structural equality). -/
def Expr.decEq : (a b : Expr) → Decidable (a = b)
  | .numeral v n p, .numeral v' n' p' =>
    if h : v = v' ∧ n = n' ∧ p = p' then
      isTrue (by obtain ⟨h1, h2, h3⟩ := h; rw [h1, h2, h3])
    else
      isFalse (by intro h'; cases h'; exact h ⟨rfl, rfl, rfl⟩)
  | .numeral _ _ _, .app _ _ _ _ _ => isFalse (by intro h; cases h)
  | .app _ _ _ _ _, .numeral _ _ _ => isFalse (by intro h; cases h)
  | .app k n p f as, .app k' n' p' f' as' =>
    if h : k = k' ∧ n = n' ∧ p = p' ∧ f = f' then
      match Expr.decEqList as as' with
      | isTrue h2 => isTrue (by obtain ⟨h1, h3, h4, h5⟩ := h; rw [h1, h2, h3, h4, h5])
      | isFalse h2 => isFalse (by intro h'; cases h'; exact h2 rfl)
    else
      isFalse (by intro h'; cases h'; exact h ⟨rfl, rfl, rfl, rfl⟩)
/-- Structural equality of argument lists. -/
def Expr.decEqList : (a b : List Expr) → Decidable (a = b)
  | [], [] => isTrue rfl
  | [], _ :: _ => isFalse (by intro h; cases h)
  | _ :: _, [] => isFalse (by intro h; cases h)
  | a :: as, b :: bs =>
    match Expr.decEq a b with
    | isTrue h1 =>
      match Expr.decEqList as bs with
      | isTrue h2 => isTrue (by rw [h1, h2])
      | isFalse h2 => isFalse (by intro h'; cases h'; exact h2 rfl)
    | isFalse h1 => isFalse (by intro h'; cases h'; exact h1 rfl)
end

instance : DecidableEq Expr := Expr.decEq

/-- Modelled from the spec: `Z3::is_numeral_u64` (Support/Z3, not part of these sources):
the expression is a numeral whose value fits an unsigned 64-bit integer. -/
def is_numeral_u64 : Expr → Option Nat
  | .numeral v _ _ => if 0 ≤ v ∧ v < 2 ^ 64 then some v.toNat else none
  | .app _ _ _ _ _ => none

/-- Modelled from the spec: `Z3::is_numeral_i64` (Support/Z3, not part of these sources):
the expression is a numeral whose value fits a signed 64-bit integer. -/
def is_numeral_i64 : Expr → Option Int
  | .numeral v _ _ => if -(2 ^ 63) ≤ v ∧ v < 2 ^ 63 then some v else none
  | .app _ _ _ _ _ => none

/-- Modelled from the spec: `Z3::is_naming_eq` (Support/Z3, not part of these sources): "a
distinguished predicate flags certain equality nodes as naming equalities (structural markers
produced by the analysis pipeline rather than true value constraints)". The flag is carried
by the node. -/
def is_naming_eq : Expr → Bool
  | .numeral _ _ _ => false
  | .app _ _ _ naming _ => naming

/-- The test `Concat.is_numeral_i(Zero) && Zero == 0` of the concat case: a numeral (fitting
a C `int`) whose value is zero. -/
def is_numeral_zero : Expr → Bool
  | .numeral v _ _ => decide (v = 0)
  | .app _ _ _ _ _ => false

/-- The test `z3::expr::is_true`: an application whose declaration kind is `Z3_OP_TRUE`. -/
def is_true : Expr → Bool
  | .app .Z3_OP_TRUE _ _ _ _ => true
  | _ => false

/-! ## Text helpers -/

/-- The function `space(N)`: `N` times append one blank. -/
def space : Nat → String
  | 0 => ""
  | n + 1 => space n ++ " "

/-- The sixteen uppercase hexadecimal digit characters (`std::hex << std::uppercase`). -/
def hexDigit (d : Nat) : Char :=
  ['0', '1', '2', '3', '4', '5', '6', '7', '8', '9', 'A', 'B', 'C', 'D', 'E', 'F'].getD d '0'

/-- The digits a stream prints for an unsigned value in base 16: most significant first, no
leading zero, one digit for zero. `fuel` bounds the number of digits. -/
def hexDigitsCore : Nat → Nat → List Char → List Char
  | 0, _, acc => acc
  | fuel + 1, n, acc =>
    if n / 16 = 0 then hexDigit (n % 16) :: acc
    else hexDigitsCore fuel (n / 16) (hexDigit (n % 16) :: acc)

/-- The manipulators `std::setw(w) << std::setfill('0')` for a right-aligned number: pad on
the left up to width `w`, never truncate. -/
def setwFill0 (w : Nat) (ds : List Char) : List Char :=
  List.replicate (w - ds.length) '0' ++ ds

/-- The function `uint64ToHex(value)`: `0x`, then `value & 0xFFFFFFFFFFFFFFFF` in uppercase
hexadecimal, zero-filled to width 16. The argument is a `uint64_t`, which has at most 16 hex digits. -/
def uint64ToHex (value : Nat) : String :=
  "0x" ++ String.mk (setwFill0 16 (hexDigitsCore 16 (value % 2 ^ 64) []))

/-- The function `std::to_string` at a signed integer. -/
def intToString (i : Int) : String :=
  if i < 0 then "-" ++ Nat.repr i.natAbs else Nat.repr i.toNat

/-- The function `power(S, N)`: the empty string for `N = 0`, else `S` appended `N` times. -/
def power (S : String) : Nat → String
  | 0 => ""
  | n + 1 => power S n ++ S

/-- The append loop shared by `toStringTemplate`, `toStringDefault` and `toStringExtract`:
append each piece to `Ret`, and the separator after every piece but the last
(`if (I != N - 1) Ret.append(sep)`). -/
def appendLoop (sep : String) : List String → String → String
  | [], Ret => Ret
  | s :: rest, Ret =>
    appendLoop sep rest (if rest.isEmpty then Ret ++ s else Ret ++ s ++ sep)

/-- The text appended for one declaration parameter: the decimal value of an integer
parameter, `?` for every other kind. -/
def paramToString : Param → String
  | .Z3_PARAMETER_INT v => intToString v
  | _ => "?"

/-- The method `DDLLang::toStringTemplate`, given the rendered arguments: `(`, the arguments
separated by blank-`Op`-blank, `)`. -/
def toStringTemplate (rendered : List String) (Op : String) : String :=
  appendLoop (" " ++ Op ++ " ") rendered "(" ++ ")"

/-- The method `DDLLang::toStringDefault`, given the rendered arguments: the declaration name,
and when there is an argument or a parameter, `(`, arguments then parameters separated by `, `, `)`. -/
def toStringDefault (name : String) (params : List Param) (rendered : List String) : String :=
  if params.length + rendered.length > 0 then
    appendLoop ", " (rendered ++ params.map paramToString) (name ++ "(") ++ ")"
  else name

/-- The method `DDLLang::toStringExtract`, given the rendered arguments: `(Extract `, arguments then
parameters separated by one blank, `)`; unreachable without argument and parameter. -/
def toStringExtract (params : List Param) (rendered : List String) : Option String :=
  if params.length + rendered.length > 0 then
    some (appendLoop " " (rendered ++ params.map paramToString) "(Extract " ++ ")")
  else none

/-- Second loop of the concat case, over `ConcatVec`: with `i` counting down from the size,
append `power("256 * ", --i)`, the element, and ` + ` unless `i` reached zero. -/
def concatLoop : List String → String → String
  | [], Ret => Ret
  | C :: rest, Ret =>
    let i := rest.length
    concatLoop rest (if i ≠ 0 then Ret ++ power "256 * " i ++ C ++ " + "
                     else Ret ++ power "256 * " i ++ C)

/-- The concat case once `ConcatVec` is built. -/
def concatRender (ConcatVec : List String) : String :=
  concatLoop ConcatVec (if ConcatVec.isEmpty then "0" else "")

mutual
/-- The method `DDLLang::toString`. -/
def toString : Expr → Option String
  | .numeral v name params =>
    match is_numeral_u64 (.numeral v name params) with
    | some Num64 => some (uint64ToHex Num64)
    | none =>
      match is_numeral_i64 (.numeral v name params) with
      | some Int64 =>
        if Int64 ≥ 0 then some (uint64ToHex Int64.toNat)
        else some (uint64ToHex (Int64 % 2 ^ 64).toNat)
      | none => some (toStringDefault name params [])
  | .app kind name params naming args =>
    match kind with
    | .Z3_OP_TRUE => some "true"
    | .Z3_OP_FALSE => some "false"
    | .Z3_OP_SELECT =>
      match args with
      | _ :: idx :: _ =>
        match is_numeral_i64 idx with
        | some Int64 => some ("(Select " ++ intToString Int64 ++ ")")
        | none =>
          match is_numeral_u64 idx with
          | some Num64 => some ("(Select " ++ Nat.repr Num64 ++ ")")
          | none => (toString idx).map (fun s => "(Select " ++ s ++ ")")
      | _ => none
    | .Z3_OP_EQ =>
      if is_naming_eq (.app .Z3_OP_EQ name params naming args) then some ""
      else
        match args with
        | lhs :: rhs :: _ =>
          (toString lhs).bind (fun l => (toString rhs).map (fun r => l ++ " == " ++ r))
        | _ => none
    | .Z3_OP_DISTINCT =>
      match args with
      | lhs :: rhs :: _ =>
        (toString lhs).bind (fun l => (toString rhs).map (fun r => l ++ " != " ++ r))
      | _ => none
    | .Z3_OP_CONCAT => (toStringConcat true args).map concatRender
    | .Z3_OP_ADD | .Z3_OP_BADD => (toStringArgs args).map (fun r => toStringTemplate r "+")
    | .Z3_OP_SUB | .Z3_OP_BSUB => (toStringArgs args).map (fun r => toStringTemplate r "-")
    | .Z3_OP_MUL | .Z3_OP_BMUL => (toStringArgs args).map (fun r => toStringTemplate r "*")
    | .Z3_OP_DIV | .Z3_OP_BSDIV_I | .Z3_OP_BSDIV | .Z3_OP_BUDIV_I | .Z3_OP_BUDIV =>
      (toStringArgs args).map (fun r => toStringTemplate r "/")
    | .Z3_OP_MOD | .Z3_OP_REM | .Z3_OP_BSMOD | .Z3_OP_BSMOD_I | .Z3_OP_BSREM
    | .Z3_OP_BSREM_I | .Z3_OP_BUREM | .Z3_OP_BUREM_I =>
      (toStringArgs args).map (fun r => toStringTemplate r "%")
    | .Z3_OP_AND => (toStringArgs args).map (fun r => toStringTemplate r "&&")
    | .Z3_OP_OR => (toStringArgs args).map (fun r => toStringTemplate r "||")
    | .Z3_OP_GE | .Z3_OP_SGEQ | .Z3_OP_UGEQ =>
      (toStringArgs args).map (fun r => toStringTemplate r ">=")
    | .Z3_OP_LE | .Z3_OP_SLEQ | .Z3_OP_ULEQ =>
      (toStringArgs args).map (fun r => toStringTemplate r "<=")
    | .Z3_OP_GT | .Z3_OP_SGT | .Z3_OP_UGT =>
      (toStringArgs args).map (fun r => toStringTemplate r ">")
    | .Z3_OP_LT | .Z3_OP_SLT | .Z3_OP_ULT =>
      (toStringArgs args).map (fun r => toStringTemplate r "<")
    | .Z3_OP_NOT =>
      match args with
      | a :: _ => (toString a).map (fun s => "!(" ++ s ++ ")")
      | _ => none
    | .Z3_OP_UMINUS =>
      match args with
      | a :: _ => (toString a).map (fun s => "-" ++ s)
      | _ => none
    | .Z3_OP_EXTRACT => (toStringArgs args).bind (fun r => toStringExtract params r)
    | .Z3_OP_UNINTERPRETED | .other _ =>
      (toStringArgs args).map (fun r => toStringDefault name params r)
/-- The calls `toString(Expr.arg(I))` for `I = 0, 1, ...` in order; unreachable as soon as
one of them is. -/
def toStringArgs : List Expr → Option (List String)
  | [] => some []
  | e :: es =>
    match toString e with
    | none => none
    | some s => (toStringArgs es).map (fun ss => s :: ss)
/-- First loop of the concat case, building `ConcatVec`: skip a numeral zero while
`PrefixZero` holds; otherwise clear `PrefixZero` and push the rendered argument. -/
def toStringConcat : Bool → List Expr → Option (List String)
  | _, [] => some []
  | PrefixZero, c :: rest =>
    if is_numeral_zero c && PrefixZero then toStringConcat PrefixZero rest
    else
      match toString c with
      | none => none
      | some s => (toStringConcat false rest).map (fun ss => s :: ss)
end

/-! ## Helpers from Support/Z3 and the Z3 library that the lowering calls -/

mutual
/-- Modelled from the spec: `Z3::find_consecutive_ops` (Support/Z3, not part of these sources):
"decompose top-level conjunctions into their conjuncts (flattening only the operator at the
top, not recursively into nested operators)", the conjuncts in argument order. An expression
that is not an application of `OpKind` is its own single conjunct. -/
def find_consecutive_ops (OpKind : DeclKind) : Expr → List Expr
  | .numeral v n p => [.numeral v n p]
  | .app k n p f args =>
    if k = OpKind then find_consecutive_ops_args OpKind args else [.app k n p f args]
/-- The conjuncts of each argument of a top-level `OpKind` node, in argument order. -/
def find_consecutive_ops_args (OpKind : DeclKind) : List Expr → List Expr
  | [] => []
  | a :: rest => find_consecutive_ops OpKind a ++ find_consecutive_ops_args OpKind rest
end

/-- The replacement recorded for `e` in the parallel vectors `src`, `dst`, if any (when an
expression is recorded twice the later entry is the one that counts). -/
def substLookup (e : Expr) : List Expr → List Expr → Option Expr
  | s :: src, d :: dst =>
    match substLookup e src dst with
    | some r => some r
    | none => if e = s then some d else none
  | _, _ => none

mutual
/-- Modelled from the spec: `z3::expr::substitute(src, dst)` (Z3 library): "applied as a single
simultaneous substitution (not iterative)": an occurrence of `src[i]` becomes `dst[i]`, the
replacement is not scanned again, and a node that is not replaced keeps its declaration and
gets its arguments substituted. -/
def substitute (src dst : List Expr) : Expr → Expr
  | .numeral v n p => (substLookup (.numeral v n p) src dst).getD (.numeral v n p)
  | .app k n p f args =>
    match substLookup (.app k n p f args) src dst with
    | some r => r
    | none => .app k n p f (substituteArgs src dst args)
/-- Substitution in each argument. -/
def substituteArgs (src dst : List Expr) : List Expr → List Expr
  | [] => []
  | a :: rest => substitute src dst a :: substituteArgs src dst rest
end

/-- Modelled from the spec: `Z3::index_var` (Support/Z3, not part of these sources): "a
globally-unique symbolic integer variable allocated on demand" from "process-wide sequential
state". The variable allocated when the counter is `counter` is the constant (an application
without arguments or parameters) named `index_name counter`; the naming scheme `index_name`
is a parameter of the development. -/
def index_var (index_name : Nat → String) (counter : Nat) : Expr :=
  .app .Z3_OP_UNINTERPRETED (index_name counter) [] false []

/-! ## The grammar model (the part of BNF/BNF.h that the lowering reads) -/

/-- A `BoundRef`: unset, a `ConstantBound`, a `SymbolicBound` with its expression, or a bound
of any other class. -/
inductive Bound where
  | nullptr
  | ConstantBound (constant : Int)
  | SymbolicBound (expr : Expr)
  | other

/-- An item of a right-hand side: a `Production` (read only through `getLHS`), an `Interval`
with its `getFrom` and `getTo`, or an item of any other class. -/
inductive RHSItem where
  | Production (LHS : Nat)
  | Interval (From To : Bound)
  | other

/-- A production: `getLHS`, the alternatives `rhs_begin .. rhs_end`, and `Assertions`. -/
structure Production where
  LHS : Nat
  RHS : List (List RHSItem)
  Assertions : List Expr

/-- The test `From == nullptr`. -/
def Bound.isNull : Bound → Bool
  | .nullptr => true
  | _ => false

/-- The test `isa<ConstantBound>`. -/
def Bound.isConstant : Bound → Bool
  | .ConstantBound _ => true
  | _ => false

/-- The test `isa<SymbolicBound>`, with the bound's `expr()` when it holds. -/
def Bound.symbolic? : Bound → Option Expr
  | .SymbolicBound e => some e
  | _ => none

/-! ## `GenHelperFunctionsInDDL`, `DDLLang::Production2DDL`, `DDLLang::dump` -/

/-- The function `GenHelperFunctionsInDDL`. -/
def GenHelperFunctionsInDDL : String :=
  "" ++ "def Select (N : uint 64) =\n"
    ++ (space 2 ++ "block\n")
    ++ (space 4 ++ "let cur = GetStream\n")
    ++ (space 4 ++ "let a = bytesOfStream cur\n")
    ++ (space 4 ++ "(Index a N) as uint 64\n\n")
    ++ "def Len =\n"
    ++ (space 2 ++ "block\n")
    ++ (space 4 ++ "let cur = GetStream\n")
    ++ (space 4 ++ "let a = bytesOfStream cur\n")
    ++ (space 4 ++ "length a\n\n")
    ++ "def Extract (High : uint 64) (Low : uint 64) (N : uint 64) =\n"
    ++ (space 2 ++ "block\n")
    ++ (space 4 ++ "let mask = (1 << (High - Low + 1)) - 1\n")
    ++ (space 4 ++ "(N >> Low) .&. mask\n\n")

/-- The locals of `Production2DDL` that the scan of the alternatives updates, with the
counter of `Z3::index_var`. (`ExtraCond` is only ever pushed to and is left out.) -/
structure LowerState where
  counter : Nat
  code : String
  BeforeSubstitution : List Expr
  AfterSubstitution : List Expr

/-- The header text `lhs` that starts `code`. -/
def lhsText (LHS : Nat) : String :=
  if LHS = 0 then
    "def Main = \n" ++ space 2 ++ "block\n" ++ space 4 ++ "let len = Len\n"
  else
    "def L" ++ Nat.repr LHS ++ " = \n" ++ space 2 ++ "block\n" ++ space 4 ++ "let len = Len\n"

section Lowering

variable (index_name : Nat → String)

/-- The block repeated for each symbolic bound: take `NewIndexVar = Z3::index_var()`, append
the line `let_defs` to `code`, push the bound's expression to `BeforeSubstitution` and the
variable to `AfterSubstitution`. -/
def bindBound (e : Expr) (st : LowerState) : Option LowerState :=
  let NewIndexVar := index_var index_name st.counter
  (toString NewIndexVar).bind (fun sv =>
    (toString e).map (fun se =>
      { counter := st.counter + 1
        code := st.code ++ (space 4 ++ "let " ++ sv ++ " = " ++ se ++ "\n")
        BeforeSubstitution := st.BeforeSubstitution ++ [e]
        AfterSubstitution := st.AfterSubstitution ++ [NewIndexVar] }))

/-- The body of the loop over `Items` for one item; the second component is
`RHS_conjuction`. -/
def scanItem (Item : RHSItem) (st : LowerState × List Nat) :
    Option (LowerState × List Nat) :=
  match Item with
  | .Production LHS => some (st.1, st.2 ++ [LHS])
  | .Interval From To =>
    if From.isNull || To.isNull then none
    else if From.isConstant && To.isConstant then some st
    else
      match From.symbolic?, To.symbolic? with
      | some f, some t =>
        (bindBound index_name f st.1).bind (fun s1 =>
          (bindBound index_name t s1).map (fun s2 => (s2, st.2)))
      | some f, none => (bindBound index_name f st.1).map (fun s1 => (s1, st.2))
      | none, some t => (bindBound index_name t st.1).map (fun s1 => (s1, st.2))
      | none, none => none
  | .other => none

/-- The loop over the items of one alternative. -/
def scanItems : List RHSItem → LowerState × List Nat → Option (LowerState × List Nat)
  | [], st => some st
  | Item :: rest, st => (scanItem index_name Item st).bind (scanItems rest)

/-- The loop over the alternatives; the second component is `Productions`, which receives
`RHS_conjuction` of an alternative when that is not empty. -/
def scanAlternatives :
    List (List RHSItem) → LowerState × List (List Nat) → Option (LowerState × List (List Nat))
  | [], st => some st
  | Items :: rest, st =>
    (scanItems index_name Items (st.1, [])).bind (fun r =>
      scanAlternatives rest (r.1, if r.2.isEmpty then st.2 else st.2 ++ [r.2]))

/-- The inner loop that builds `conj_parsers`. -/
def conjLoop : List Nat → String → String
  | [], conj_parsers => conj_parsers
  | j :: rest, conj_parsers => conjLoop rest (conj_parsers ++ ("L" ++ Nat.repr j ++ "; "))

/-- The outer loop that builds `disj_parsers`. -/
def disjLoop : List (List Nat) → String → String
  | [], disj_parsers => disj_parsers
  | c :: rest, disj_parsers =>
    let conj_parsers := conjLoop c "\x7b " ++ "\x7d"
    disjLoop rest
      (if rest.isEmpty then disj_parsers ++ conj_parsers
       else disj_parsers ++ conj_parsers ++ " <| ")

/-- The alternation line `disj_parsers`. -/
def disj_parsers (Productions : List (List Nat)) : String :=
  disjLoop Productions (space 4) ++ "\n"

/-- The loop over `ConjOps` of one assertion. -/
def guardConjOps (Before After : List Expr) : List Expr → String → Option String
  | [], code => some code
  | ConjOp :: rest, code =>
    if !is_true ConjOp then
      match toString (substitute Before After ConjOp) with
      | none => none
      | some s =>
        if s = "" then guardConjOps Before After rest code
        else guardConjOps Before After rest (code ++ ("\n    (" ++ s ++ ") is true"))
    else guardConjOps Before After rest code

/-- The loop over `P.Assertions`. -/
def guardAssertions (Before After : List Expr) : List Expr → String → Option String
  | [], code => some code
  | Assert :: rest, code =>
    (guardConjOps Before After (find_consecutive_ops .Z3_OP_AND Assert) code).bind
      (guardAssertions Before After rest)

/-- The first part of `Production2DDL`: the header and the scan of the alternatives, started
with the allocator at `counter`. -/
def Production2DDL_scan (P : Production) (counter : Nat) :
    Option (LowerState × List (List Nat)) :=
  scanAlternatives index_name P.RHS
    ({ counter := counter, code := "" ++ lhsText P.LHS,
       BeforeSubstitution := [], AfterSubstitution := [] }, [])

/-- The method `DDLLang::Production2DDL`, started with the allocator at `counter`: the
returned `code` and the allocator afterwards. -/
def Production2DDL (P : Production) (counter : Nat) : Option (String × Nat) :=
  (Production2DDL_scan index_name P counter).bind (fun r =>
    let code := r.1.code ++ disj_parsers r.2
    let guarded :=
      if !P.Assertions.isEmpty then
        guardAssertions r.1.BeforeSubstitution r.1.AfterSubstitution P.Assertions code
      else some code
    guarded.map (fun code => (code ++ "\n\n", r.1.counter)))

/-- The loop of `dump` that fills `CodeVec`. -/
def dumpLoop : List Production → Nat → List String → Option (List String × Nat)
  | [], counter, CodeVec => some (CodeVec, counter)
  | P :: rest, counter, CodeVec =>
    (Production2DDL index_name P counter).bind (fun r =>
      dumpLoop rest r.2 (CodeVec ++ [r.1]))

/-- The method `DDLLang::dump` up to the point where the file is written: `CodeVec` and the
allocator afterwards. -/
def dump (Productions : List Production) (counter : Nat) : Option (List String × Nat) :=
  dumpLoop index_name Productions counter [GenHelperFunctionsInDDL]

/-- The text `dump` writes to the file: every element of `CodeVec` followed by a newline. -/
def dumpText (CodeVec : List String) : String :=
  String.join (CodeVec.map (fun code => code ++ "\n"))

end Lowering

/-! ## Definitions used to state the theorems -/

/-- The `k` low base-16 digits of `n`, most significant first: the zero-padded base-16
representation of `n` at width `k`. -/
def hexFixed : Nat → Nat → List Nat
  | 0, _ => []
  | k + 1, n => hexFixed k (n / 16) ++ [n % 16]

/-- An expression list renders, in order and one text per expression, to the list `rs`. -/
def RendersTo (es : List Expr) (rs : List String) : Prop :=
  List.Forall₂ (fun e s => toString e = some s) es rs

/-- The weighted elements of a concat: element `j` of `m` is the text `256 * ` repeated
`m - 1 - j` times followed by the element. -/
def concatElements (rs : List String) : List String :=
  rs.mapIdx (fun j s => String.join (List.replicate (rs.length - 1 - j) "256 * ") ++ s)

/-- The scan of the alternatives accepts the item: a production reference, or an interval
with two set bounds that are both constant or of which at least one is symbolic. -/
def itemOK : RHSItem → Bool
  | .Production _ => true
  | .Interval From To =>
    !(From.isNull || To.isNull) &&
      ((From.isConstant && To.isConstant) || From.symbolic?.isSome || To.symbolic?.isSome)
  | .other => false

/-- The expressions of the symbolic bounds of an item: of an interval, the `From` bound
before the `To` bound. -/
def itemBounds : RHSItem → List Expr
  | .Interval From To => From.symbolic?.toList ++ To.symbolic?.toList
  | _ => []

/-- The production referenced by an item, if it is a production reference. -/
def itemRefs : RHSItem → List Nat
  | .Production LHS => [LHS]
  | _ => []

/-- Every item of every alternative is accepted by the scan. -/
def scanOK (P : Production) : Bool :=
  P.RHS.all (fun Items => Items.all itemOK)

/-- The expressions of the symbolic bounds of a production in scan order: alternatives in
order, items left to right, `From` before `To`. -/
def symbolicBounds (P : Production) : List Expr :=
  P.RHS.flatMap (fun Items => Items.flatMap itemBounds)

/-- For each alternative with at least one production reference, in alternative order, the
referenced ids in item order. -/
def conjunctions (P : Production) : List (List Nat) :=
  (P.RHS.map (fun Items => Items.flatMap itemRefs)).filter (fun c => !c.isEmpty)

/-- The top-level conjuncts of all assertions, in assertion order. -/
def allConjuncts (P : Production) : List Expr :=
  P.Assertions.flatMap (find_consecutive_ops .Z3_OP_AND)

/-- The `k` fresh variables allocated one after the other from the counter value `counter`. -/
def freshVars (index_name : Nat → String) (counter k : Nat) : List Expr :=
  (List.range' counter k).map (index_var index_name)

/-- The binding lines of the fresh variables allocated from `counter` on for bound
expressions with texts `rendered`: four blanks, `let `, the variable, ` = `, the text of the
bound expression, newline. -/
def letLines (index_name : Nat → String) (counter : Nat) (rendered : List String) :
    List String :=
  List.zipWith (fun i se => "    let " ++ index_name i ++ " = " ++ se ++ "\n")
    (List.range' counter rendered.length) rendered

/-- The binding block run for each expression of a list in turn. -/
def bindAll (index_name : Nat → String) : List Expr → LowerState → Option LowerState
  | [], st => some st
  | e :: rest, st => (bindBound index_name e st).bind (bindAll index_name rest)

/-- The text one conjunct adds to `code`: nothing for the literal true and for a conjunct
whose text after substitution is empty, otherwise the guard line. -/
def guardLine (Before After : List Expr) (ConjOp : Expr) : Option String :=
  if is_true ConjOp then some ""
  else (toString (substitute Before After ConjOp)).map (fun s =>
    if s = "" then "" else "\n    (" ++ s ++ ") is true")

/-- The guard lines of a list of conjuncts, in order. -/
def guardText (Before After : List Expr) : List Expr → Option String
  | [] => some ""
  | c :: rest =>
    (guardLine Before After c).bind (fun l => (guardText Before After rest).map (fun t => l ++ t))

mutual
/-- The expression `sub` occurs in an expression (as the expression itself or inside one of
its arguments). -/
def occurs (sub : Expr) : Expr → Bool
  | .numeral v n p => decide (Expr.numeral v n p = sub)
  | .app k n p f args => decide (Expr.app k n p f args = sub) || occursArgs sub args
/-- The expression `sub` occurs in one of the expressions of a list. -/
def occursArgs (sub : Expr) : List Expr → Bool
  | [] => false
  | a :: rest => occurs sub a || occursArgs sub rest
end

/-- The item is a production reference or an interval whose two bounds are constant. -/
def constantItem : RHSItem → Bool
  | .Production _ => true
  | .Interval (.ConstantBound _) (.ConstantBound _) => true
  | _ => false

/-- Every interval of every alternative has two constant bounds (and every other item is a
production reference). -/
def allConstantBounds (P : Production) : Bool :=
  P.RHS.all (fun Items => Items.all constantItem)

/-- The name under which a production is defined. -/
def definitionName (LHS : Nat) : String :=
  if LHS = 0 then "Main" else "L" ++ Nat.repr LHS

/-- A plain variable named `s`, for examples. -/
def exampleVar (s : String) : Expr := .app .Z3_OP_UNINTERPRETED s [] false []

/-- A naming scheme for fresh variables, for examples. -/
def exampleName (n : Nat) : String := "ii" ++ Nat.repr n

/-- A production with three symbolic bounds in two alternatives, for examples. -/
def exampleProduction : Production :=
  ⟨1, [[.Interval (.SymbolicBound (exampleVar "x")) (.ConstantBound 3), .Production 2],
       [.Interval (.SymbolicBound (exampleVar "y")) (.SymbolicBound (.numeral 9 "Int" []))]],
    []⟩

/-- Every item of the list is a production reference. -/
def refsOnly (Items : List RHSItem) : Bool :=
  Items.all (fun Item => match Item with
    | .Production _ => true
    | _ => false)

/-- The variables bound by the fresh-variable binding lines of the productions lowered in one
run of `dump` started with the allocator at `counter`, in document order: for each
production, `AfterSubstitution` as the scan of its alternatives leaves it. -/
def dumpFreshVars (index_name : Nat → String) : List Production → Nat → Option (List Expr)
  | [], _ => some []
  | P :: rest, counter =>
    (Production2DDL_scan index_name P counter).bind (fun r =>
      (dumpFreshVars index_name rest r.1.counter).map (fun vs =>
        r.1.AfterSubstitution ++ vs))

/-- An injective naming scheme for fresh variables, for examples: `i` repeated `n + 1`
times. -/
def exampleUnaryName (n : Nat) : String := String.mk (List.replicate (n + 1) 'i')

/-- The text of one conjunction of the alternation line: an opening brace and a blank, then
for each referenced id the letter `L`, the decimal id, a semicolon and a blank, then the
closing brace. -/
def conjunctionText (c : List Nat) : String :=
  "\x7b " ++ String.join (c.map (fun id => "L" ++ Nat.repr id ++ "; ")) ++ "\x7d"

/-- The alternation line for the conjunctions `cs`: four blanks, the conjunction texts joined
by ` <| `, newline. -/
def alternationLine (cs : List (List Nat)) : String :=
  "    " ++ " <| ".intercalate (cs.map conjunctionText) ++ "\n"

/-- The guard lines for the texts `rs` of the rendered conjuncts, in order: one line, after
a newline and four blanks `(` ++ text ++ `) is true`, for each text that is not empty. -/
def guardLinesOf (rs : List String) : List String :=
  (rs.filter (fun s => s ≠ "")).map (fun s => "\n    (" ++ s ++ ") is true")

/-- The conjuncts that reach the renderer: the top-level conjuncts of all assertions, in
assertion order and within an assertion in conjunct order, without the literal `true`, each
after the substitution of `Before` by `After`. -/
def substitutedConjuncts (Before After : List Expr) (P : Production) : List Expr :=
  ((allConjuncts P).filter (fun c => !is_true c)).map (substitute Before After)

/-- A production with one symbolic bound and two assertions, the first a conjunction that
holds a literal `true` and a naming equality, for examples. -/
def exampleGuarded : Production :=
  ⟨2, [[.Interval (.SymbolicBound (exampleVar "x")) (.ConstantBound 8), .Production 4]],
    [.app .Z3_OP_AND "and" [] false
        [.app .Z3_OP_LE "<=" [] false [exampleVar "x", exampleVar "y"],
         .app .Z3_OP_TRUE "true" [] false [],
         .app .Z3_OP_EQ "=" [] true [exampleVar "y", exampleVar "field"]],
     .app .Z3_OP_LT "<" [] false [exampleVar "y", exampleVar "z"]]⟩

/-- The value of a decimal digit character. -/
def digitValue (c : Char) : Nat := c.toNat - 48

/-- The number written by a list of decimal digit characters, most significant first. -/
def decimalValue : List Char → Nat
  | [] => 0
  | c :: cs => digitValue c * 10 ^ cs.length + decimalValue cs

/-- The node has the arguments that the rule for its kind reads (two for select, for an
equality that is not a naming equality and for distinct, one for not and unary minus), and
an extract node has at least one argument or parameter. -/
def arityOK (kind : DeclKind) (params : List Param) (naming : Bool) (args : List Expr) :
    Bool :=
  match kind with
  | .Z3_OP_SELECT => decide (2 ≤ args.length)
  | .Z3_OP_EQ => naming || decide (2 ≤ args.length)
  | .Z3_OP_DISTINCT => decide (2 ≤ args.length)
  | .Z3_OP_NOT => decide (1 ≤ args.length)
  | .Z3_OP_UMINUS => decide (1 ≤ args.length)
  | .Z3_OP_EXTRACT => decide (0 < params.length + args.length)
  | _ => true

mutual
/-- A well-formed expression: every node of the tree has the arguments that the rule for its
kind reads, and the tree contains no extract node without argument and parameter. -/
def wellFormed : Expr → Bool
  | .numeral _ _ _ => true
  | .app kind _ params naming args => arityOK kind params naming args && wellFormedArgs args
/-- Every expression of the list is well-formed. -/
def wellFormedArgs : List Expr → Bool
  | [] => true
  | a :: rest => wellFormed a && wellFormedArgs rest
end

/-- The item makes the scan unreachable by its shape alone: it is neither a production
reference nor an interval, or it is an interval with an unset `From` or `To` bound. -/
def malformedItem : RHSItem → Bool
  | .Production _ => false
  | .Interval From To => From.isNull || To.isNull
  | .other => true

/-- The bound is set and is a constant or a symbolic bound. -/
def Bound.constantOrSymbolic : Bound → Bool
  | .ConstantBound _ => true
  | .SymbolicBound _ => true
  | _ => false

/-- The item is a production reference or an interval with two set bounds, each constant or
symbolic. -/
def properItem : RHSItem → Bool
  | .Production _ => true
  | .Interval From To => From.constantOrSymbolic && To.constantOrSymbolic
  | .other => false

/-- The allocator value at which the `k`-th production of a list is lowered in a run that
starts at `counter`: every earlier production has advanced it by its number of symbolic
bounds. -/
def counterAt (Ps : List Production) (counter k : Nat) : Nat :=
  counter + ((Ps.take k).map (fun P => (symbolicBounds P).length)).sum

/-- The parenthesized arguments joined by the operator `Op`: `(`, the texts of the arguments
in order separated by blank-`Op`-blank, `)`; no text when an argument has none. -/
def templateText (Op : String) (args : List Expr) : Option String :=
  (toStringArgs args).map (fun rs => "(" ++ (" " ++ Op ++ " ").intercalate rs ++ ")")

/-! ## Theorems -/

/-! ### Text lemmas -/

theorem join_foldl (l : List String) (acc : String) :
    List.foldl (fun r s => r ++ s) acc l = acc ++ String.join l := by
  induction l generalizing acc with
  | nil => simp [String.join]
  | cons a l ih =>
    simp only [List.foldl_cons, String.join]
    rw [ih, ih ("" ++ a)]
    simp [String.append_assoc]

theorem join_nil : String.join [] = "" := rfl

theorem join_cons (a : String) (l : List String) :
    String.join (a :: l) = a ++ String.join l := by
  simp only [String.join, List.foldl_cons]
  rw [join_foldl]
  simp [String.join]

theorem join_append (l₁ l₂ : List String) :
    String.join (l₁ ++ l₂) = String.join l₁ ++ String.join l₂ := by
  induction l₁ with
  | nil => simp [join_nil]
  | cons a l ih => simp [join_cons, ih, String.append_assoc]

theorem intercalate_go_eq (sep : String) (l : List String) (acc : String) :
    String.intercalate.go acc sep l = acc ++ String.join (l.map (fun a => sep ++ a)) := by
  induction l generalizing acc with
  | nil => simp [String.intercalate.go, join_nil]
  | cons a l ih =>
    simp only [String.intercalate.go, ih, List.map_cons, join_cons, String.append_assoc]

theorem intercalate_cons (sep a : String) (l : List String) :
    sep.intercalate (a :: l) = a ++ String.join (l.map (fun b => sep ++ b)) := by
  simp [String.intercalate, intercalate_go_eq]

theorem appendLoop_cons (sep s : String) (rest : List String) (Ret : String) :
    appendLoop sep (s :: rest) Ret = Ret ++ s ++ String.join (rest.map (fun b => sep ++ b)) := by
  induction rest generalizing s Ret with
  | nil => simp [appendLoop, join_nil]
  | cons b rest ih =>
    rw [appendLoop, ih]
    simp [join_cons, String.append_assoc]

/-- The append loop writes its pieces, in order, joined by the separator. -/
theorem appendLoop_eq (sep : String) (l : List String) (Ret : String) :
    appendLoop sep l Ret = Ret ++ sep.intercalate l := by
  cases l with
  | nil => simp [appendLoop, String.intercalate]
  | cons a l => rw [appendLoop_cons, intercalate_cons, String.append_assoc]

/-! ### Numerals -/

theorem hexFixed_length (k n : Nat) : (hexFixed k n).length = k := by
  induction k generalizing n with
  | zero => rfl
  | succ k ih => simp [hexFixed, ih]

theorem hexFixed_lt (k n d : Nat) (h : d ∈ hexFixed k n) : d < 16 := by
  induction k generalizing n with
  | zero => simp [hexFixed] at h
  | succ k ih =>
    simp only [hexFixed, List.mem_append, List.mem_singleton] at h
    rcases h with h | h
    · exact ih _ h
    · omega

theorem hexFixed_ofDigits (k n : Nat) (h : n < 16 ^ k) :
    Nat.ofDigits 16 (hexFixed k n).reverse = n := by
  induction k generalizing n with
  | zero => simp [hexFixed] at *; omega
  | succ k ih =>
    have h2 : n / 16 < 16 ^ k := by
      rw [Nat.div_lt_iff_lt_mul (by norm_num)]
      rw [pow_succ] at h; exact h
    simp only [hexFixed, List.reverse_append, List.reverse_cons, List.reverse_nil,
      List.nil_append, List.singleton_append, Nat.ofDigits_cons, ih _ h2]
    omega

theorem hexFixed_zero (k : Nat) : hexFixed k 0 = List.replicate k 0 := by
  induction k with
  | zero => rfl
  | succ k ih =>
    simp only [hexFixed, Nat.zero_div, ih, Nat.zero_mod]
    rw [List.replicate_succ']

theorem hexDigitsCore_eq (fuel n : Nat) (acc : List Char) (h : n < 16 ^ fuel) :
    setwFill0 (fuel + acc.length) (hexDigitsCore fuel n acc)
      = (hexFixed fuel n).map hexDigit ++ acc := by
  induction fuel generalizing n acc with
  | zero => simp [hexDigitsCore, setwFill0, hexFixed]
  | succ k ih =>
    have h2 : n / 16 < 16 ^ k := by
      rw [Nat.div_lt_iff_lt_mul (by norm_num)]
      rw [pow_succ] at h; exact h
    simp only [hexDigitsCore, hexFixed]
    by_cases hz : n / 16 = 0
    · simp only [hz, if_true, hexFixed_zero, setwFill0, List.length_cons]
      have : k + 1 + acc.length - (acc.length + 1) = k := by omega
      rw [this]
      simp [hexDigit]
    · simp only [hz, if_false]
      have := ih (n / 16) (hexDigit (n % 16) :: acc) h2
      simp only [List.length_cons] at this
      have e : k + 1 + acc.length = k + (acc.length + 1) := by omega
      rw [e, this]
      simp

/-- The function `uint64ToHex` writes `0x` and the sixteen base-16 digits of its argument
modulo `2^64`. -/
theorem uint64ToHex_eq (value : Nat) :
    uint64ToHex value = String.mk ('0' :: 'x' :: (hexFixed 16 (value % 2 ^ 64)).map hexDigit) := by
  have h := hexDigitsCore_eq 16 (value % 2 ^ 64) [] (by
    have : (16 : Nat) ^ 16 = 2 ^ 64 := by norm_num
    rw [this]; exact Nat.mod_lt _ (by positivity))
  simp only [List.length_nil, Nat.add_zero, List.append_nil] at h
  unfold uint64ToHex
  rw [h]
  rfl

/-- A numeral that fits the unsigned or the signed 64-bit type renders through `uint64ToHex`
at its value modulo `2^64`. -/
theorem toString_numeral_fits (v : Int) (name : String) (params : List Param)
    (hlo : -(2 ^ 63) ≤ v) (hhi : v < 2 ^ 64) :
    toString (.numeral v name params) = some (uint64ToHex (v % 2 ^ 64).toNat) := by
  unfold toString
  by_cases h0 : 0 ≤ v
  · have e : v % 2 ^ 64 = v := Int.emod_eq_of_lt h0 hhi
    simp only [is_numeral_u64, if_pos (And.intro h0 hhi), e]
  · have h1 : v < 2 ^ 63 := by omega
    have h2 : ¬ (v ≥ 0) := by omega
    simp only [is_numeral_u64, is_numeral_i64, if_neg (fun h : 0 ≤ v ∧ v < 2 ^ 64 => h0 h.1),
      if_pos (And.intro hlo h1), if_neg h2]

/-- C1: every numeral that fits the unsigned or the signed 64-bit type renders as `0x`
followed by exactly sixteen uppercase hexadecimal digits, which are the zero-padded base-16
digits (most significant first) of the value modulo `2^64`, so the text has length 18; the
numeral `-1` renders as `0xFFFFFFFFFFFFFFFF` and `255` as `0x00000000000000FF`. -/
theorem toString_numeral_hex (v : Int) (name : String) (params : List Param)
    (hlo : -(2 ^ 63) ≤ v) (hhi : v < 2 ^ 64) :
    (∃ ds : List Nat, ds.length = 16 ∧ (∀ d ∈ ds, d < 16) ∧
        Nat.ofDigits 16 ds.reverse = (v % 2 ^ 64).toNat ∧
        toString (.numeral v name params) = some (String.mk ('0' :: 'x' :: ds.map hexDigit)) ∧
        (String.mk ('0' :: 'x' :: ds.map hexDigit)).length = 18) ∧
    toString (.numeral (-1) name params) = some "0xFFFFFFFFFFFFFFFF" ∧
    toString (.numeral 255 name params) = some "0x00000000000000FF" := by
  refine ⟨⟨hexFixed 16 ((v % 2 ^ 64).toNat % 2 ^ 64), hexFixed_length _ _, ?_, ?_, ?_, ?_⟩,
    ?_, ?_⟩
  · intro d hd; exact hexFixed_lt _ _ _ hd
  · have hlt : (v % 2 ^ 64).toNat % 2 ^ 64 < 16 ^ 16 := by
      have : (16 : Nat) ^ 16 = 2 ^ 64 := by norm_num
      rw [this]; exact Nat.mod_lt _ (by positivity)
    rw [hexFixed_ofDigits _ _ hlt]
    apply Nat.mod_eq_of_lt
    have h1 : v % 2 ^ 64 < 2 ^ 64 := Int.emod_lt_of_pos _ (by positivity)
    have h2 : 0 ≤ v % 2 ^ 64 := Int.emod_nonneg _ (by positivity)
    omega
  · rw [toString_numeral_fits v name params hlo hhi, uint64ToHex_eq]
  · simp [String.length, hexFixed_length]
  · rw [toString_numeral_fits (-1) name params (by norm_num) (by norm_num)]; decide
  · rw [toString_numeral_fits 255 name params (by norm_num) (by norm_num)]; decide

theorem toString_numeral_hex_witness :
    (-(2 ^ 63) ≤ (-5 : Int) ∧ (-5 : Int) < 2 ^ 64) ∧
    toString (.numeral (-5) "bv" [.Z3_PARAMETER_INT 64]) = some "0xFFFFFFFFFFFFFFFB" ∧
    ∃ ds : List Nat, ds.length = 16 ∧ (∀ d ∈ ds, d < 16) ∧
      Nat.ofDigits 16 ds.reverse = ((-5 : Int) % 2 ^ 64).toNat ∧
      toString (.numeral (-5) "bv" [.Z3_PARAMETER_INT 64])
        = some (String.mk ('0' :: 'x' :: ds.map hexDigit)) ∧
      (String.mk ('0' :: 'x' :: ds.map hexDigit)).length = 18 :=
  ⟨⟨by decide, by decide⟩, by decide,
   (toString_numeral_hex (-5) "bv" [.Z3_PARAMETER_INT 64] (by decide) (by decide)).1⟩

/-! ### Rendering of argument lists and of the operator template -/

theorem toStringArgs_of_rendersTo {es : List Expr} {rs : List String} (h : RendersTo es rs) :
    toStringArgs es = some rs := by
  induction h with
  | nil => simp [toStringArgs]
  | cons h1 _ ih => simp [toStringArgs, h1, ih]

theorem rendersTo_of_toStringArgs {es : List Expr} {rs : List String}
    (h : toStringArgs es = some rs) : RendersTo es rs := by
  induction es generalizing rs with
  | nil =>
    simp [toStringArgs] at h
    subst h
    exact List.Forall₂.nil
  | cons e es ih =>
    simp only [toStringArgs] at h
    cases he : toString e with
    | none => simp [he] at h
    | some s =>
      cases hes : toStringArgs es with
      | none => simp [he, hes] at h
      | some ss =>
        simp [he, hes] at h
        subst h
        exact List.Forall₂.cons he (ih hes)

theorem toStringTemplate_eq (rs : List String) (Op : String) :
    toStringTemplate rs Op = "(" ++ (" " ++ Op ++ " ").intercalate rs ++ ")" := by
  simp [toStringTemplate, appendLoop_eq]

/-- C2: an add, subtract or multiply node whose arguments render, in order, to `rs` renders
as `(`, the texts `rs` in the same order joined by ` + ` (` - `, ` * `), and `)`; for two
arguments `a`, `b` this is `(` ++ text of `a` ++ ` + ` ++ text of `b` ++ `)`. -/
theorem toString_add_sub_mul (name : String) (params : List Param) (naming : Bool)
    (args : List Expr) (rs : List String) (h : RendersTo args rs)
    (a b : Expr) (sa sb : String) (ha : toString a = some sa) (hb : toString b = some sb) :
    (toString (.app .Z3_OP_ADD name params naming args)
        = some ("(" ++ " + ".intercalate rs ++ ")") ∧
     toString (.app .Z3_OP_SUB name params naming args)
        = some ("(" ++ " - ".intercalate rs ++ ")") ∧
     toString (.app .Z3_OP_MUL name params naming args)
        = some ("(" ++ " * ".intercalate rs ++ ")")) ∧
    (toString (.app .Z3_OP_ADD name params naming [a, b])
        = some ("(" ++ sa ++ " + " ++ sb ++ ")") ∧
     toString (.app .Z3_OP_SUB name params naming [a, b])
        = some ("(" ++ sa ++ " - " ++ sb ++ ")") ∧
     toString (.app .Z3_OP_MUL name params naming [a, b])
        = some ("(" ++ sa ++ " * " ++ sb ++ ")")) := by
  have hr := toStringArgs_of_rendersTo h
  have hab : toStringArgs [a, b] = some [sa, sb] := by simp [toStringArgs, ha, hb]
  refine ⟨⟨?_, ?_, ?_⟩, ?_, ?_, ?_⟩
  · simp only [toString, hr, Option.map_some', toStringTemplate_eq]; rfl
  · simp only [toString, hr, Option.map_some', toStringTemplate_eq]; rfl
  · simp only [toString, hr, Option.map_some', toStringTemplate_eq]; rfl
  all_goals
    simp only [toString, hab, Option.map_some', toStringTemplate_eq]
    simp [String.intercalate, String.intercalate.go, String.append_assoc]

theorem toString_add_sub_mul_witness :
    RendersTo
      [.app .Z3_OP_UNINTERPRETED "x" [] false [], .numeral 3 "Int" [],
        .app .Z3_OP_UNINTERPRETED "y" [] false []]
      ["x", "0x0000000000000003", "y"] ∧
    toString (.app .Z3_OP_UNINTERPRETED "x" [] false []) = some "x" ∧
    toString (.numeral 3 "Int" []) = some "0x0000000000000003" ∧
    toString (.app .Z3_OP_SUB "-" [] false
      [.app .Z3_OP_UNINTERPRETED "x" [] false [], .numeral 3 "Int" [],
        .app .Z3_OP_UNINTERPRETED "y" [] false []])
      = some ("(" ++ " - ".intercalate ["x", "0x0000000000000003", "y"] ++ ")") ∧
    toString (.app .Z3_OP_SUB "-" [] false
      [.app .Z3_OP_UNINTERPRETED "x" [] false [], .numeral 3 "Int" []])
      = some ("(" ++ "x" ++ " - " ++ "0x0000000000000003" ++ ")") :=
  have hx : toString (.app .Z3_OP_UNINTERPRETED "x" [] false []) = some "x" := by decide
  have h3 : toString (.numeral 3 "Int" []) = some "0x0000000000000003" := by decide
  have hy : toString (.app .Z3_OP_UNINTERPRETED "y" [] false []) = some "y" := by decide
  have hr : RendersTo
      [.app .Z3_OP_UNINTERPRETED "x" [] false [], .numeral 3 "Int" [],
        .app .Z3_OP_UNINTERPRETED "y" [] false []]
      ["x", "0x0000000000000003", "y"] :=
    List.Forall₂.cons hx (List.Forall₂.cons h3 (List.Forall₂.cons hy List.Forall₂.nil))
  have t := toString_add_sub_mul "-" [] false _ _ hr _ _ _ _ hx h3
  ⟨hr, hx, h3, t.1.2.1, t.2.2.1⟩
/-! ### Concatenation -/

theorem power_eq (S : String) (n : Nat) : power S n = String.join (List.replicate n S) := by
  induction n with
  | zero => rfl
  | succ n ih => rw [power, ih, List.replicate_succ', join_append, join_cons, join_nil,
      String.append_empty]

theorem toStringConcat_false (args : List Expr) :
    toStringConcat false args = toStringArgs args := by
  induction args with
  | nil => simp [toStringConcat, toStringArgs]
  | cons c rest ih => simp [toStringConcat, toStringArgs, ih]

/-- The first loop of the concat case renders what is left after dropping the leading numeral
zeros. -/
theorem toStringConcat_true (args : List Expr) :
    toStringConcat true args = toStringArgs (args.dropWhile is_numeral_zero) := by
  induction args with
  | nil => simp [toStringConcat, toStringArgs]
  | cons c rest ih =>
    by_cases hc : is_numeral_zero c = true
    · simp [toStringConcat, hc, ih, List.dropWhile]
    · simp [toStringConcat, hc, List.dropWhile, toStringArgs, toStringConcat_false]

theorem concatElements_cons (C : String) (rest : List String) :
    concatElements (C :: rest)
      = (power "256 * " rest.length ++ C) :: concatElements rest := by
  simp only [concatElements, List.mapIdx_cons, List.length_cons, power_eq]
  congr 1
  apply List.mapIdx_eq_mapIdx_iff.mpr
  intro i hi
  congr 3
  omega

theorem concatLoop_eq (rs : List String) (Ret : String) :
    concatLoop rs Ret = Ret ++ " + ".intercalate (concatElements rs) := by
  induction rs generalizing Ret with
  | nil => simp [concatLoop, concatElements, String.intercalate]
  | cons C rest ih =>
    rw [concatLoop, concatElements_cons, intercalate_cons]
    cases rest with
    | nil => simp [concatLoop, concatElements, join_nil, String.append_assoc]
    | cons D rest' =>
      simp only [List.length_cons, ne_eq, Nat.add_one_ne_zero, not_false_eq_true, if_true]
      rw [ih, concatElements_cons, intercalate_cons]
      simp [join_cons, String.append_assoc]

theorem toString_concat_eq (name : String) (params : List Param) (naming : Bool)
    (args : List Expr) :
    toString (.app .Z3_OP_CONCAT name params naming args)
      = (toStringArgs (args.dropWhile is_numeral_zero)).map (fun rs =>
          if rs.isEmpty then "0" else " + ".intercalate (concatElements rs)) := by
  simp only [toString, toStringConcat_true]
  congr 1
  funext rs
  cases rs with
  | nil => rfl
  | cons a l => simp [concatRender, concatLoop_eq]

/-- C3: a concat node renders the arguments left after dropping the leading numeral zeros:
`0` when none is left, otherwise the weighted elements joined by ` + `, element `j` of `m`
being `256 * ` repeated `m - 1 - j` times followed by its text. So `concat [0, 0, x, y]` with
`x` not a numeral zero is `256 * ` ++ text of `x` ++ ` + ` ++ text of `y`, `concat [0, 0]` is
`0`, and a numeral zero put in front of the arguments does not change the text. -/
theorem toString_concat (name : String) (params : List Param) (naming : Bool)
    (args : List Expr) (rs : List String)
    (h : RendersTo (args.dropWhile is_numeral_zero) rs)
    (zn : String) (zp : List Param) (x y : Expr) (sx sy : String)
    (hx : is_numeral_zero x = false) (hsx : toString x = some sx)
    (hsy : toString y = some sy) :
    toString (.app .Z3_OP_CONCAT name params naming args)
      = some (if rs.isEmpty then "0" else " + ".intercalate (concatElements rs)) ∧
    toString (.app .Z3_OP_CONCAT name params naming
        [.numeral 0 zn zp, .numeral 0 zn zp, x, y])
      = some ("256 * " ++ sx ++ " + " ++ sy) ∧
    toString (.app .Z3_OP_CONCAT name params naming [.numeral 0 zn zp, .numeral 0 zn zp])
      = some "0" ∧
    toString (.app .Z3_OP_CONCAT name params naming (.numeral 0 zn zp :: args))
      = toString (.app .Z3_OP_CONCAT name params naming args) := by
  refine ⟨?_, ?_, ?_, ?_⟩
  · rw [toString_concat_eq, toStringArgs_of_rendersTo h]; rfl
  · rw [toString_concat_eq]
    have hd : List.dropWhile is_numeral_zero [.numeral 0 zn zp, .numeral 0 zn zp, x, y]
        = [x, y] := by
      have h0 : is_numeral_zero (.numeral 0 zn zp) = true := by simp [is_numeral_zero]
      simp only [List.dropWhile, h0, hx]
    rw [hd]
    have hxy : toStringArgs [x, y] = some [sx, sy] := by simp [toStringArgs, hsx, hsy]
    rw [hxy]
    simp [concatElements, List.mapIdx_cons, String.intercalate, String.intercalate.go,
      join_cons, join_nil, String.append_assoc]
  · rw [toString_concat_eq]
    simp [List.dropWhile, is_numeral_zero, toStringArgs]
  · rw [toString_concat_eq, toString_concat_eq]
    simp [List.dropWhile, is_numeral_zero]

theorem toString_concat_witness :
    RendersTo
      (List.dropWhile is_numeral_zero
        [.numeral 0 "bv" [], .app .Z3_OP_UNINTERPRETED "x" [] false [], .numeral 0 "bv" []])
      ["x", "0x0000000000000000"] ∧
    is_numeral_zero (.app .Z3_OP_UNINTERPRETED "x" [] false []) = false ∧
    toString (.app .Z3_OP_UNINTERPRETED "x" [] false []) = some "x" ∧
    toString (.numeral 7 "bv" []) = some "0x0000000000000007" ∧
    toString (.app .Z3_OP_CONCAT "concat" [] false
        [.numeral 0 "bv" [], .app .Z3_OP_UNINTERPRETED "x" [] false [], .numeral 0 "bv" []])
      = some (if ["x", "0x0000000000000000"].isEmpty then "0"
              else " + ".intercalate (concatElements ["x", "0x0000000000000000"])) ∧
    toString (.app .Z3_OP_CONCAT "concat" [] false
        [.numeral 0 "bv" [], .numeral 0 "bv" [], .app .Z3_OP_UNINTERPRETED "x" [] false [],
          .numeral 7 "bv" []])
      = some ("256 * " ++ "x" ++ " + " ++ "0x0000000000000007") :=
  have hr : RendersTo
      (List.dropWhile is_numeral_zero
        [.numeral 0 "bv" [], .app .Z3_OP_UNINTERPRETED "x" [] false [], .numeral 0 "bv" []])
      ["x", "0x0000000000000000"] := rendersTo_of_toStringArgs (by decide)
  have hx : toString (.app .Z3_OP_UNINTERPRETED "x" [] false []) = some "x" := by decide
  have h7 : toString (.numeral 7 "bv" []) = some "0x0000000000000007" := by decide
  have t := toString_concat "concat" [] false _ _ hr "bv" []
    (.app .Z3_OP_UNINTERPRETED "x" [] false []) (.numeral 7 "bv" []) "x" "0x0000000000000007"
    (by decide) hx h7
  ⟨hr, by decide, hx, h7, t.1, t.2.1⟩

/-! ### The scan of the alternatives -/

theorem space_two : space 2 = "  " := by decide

theorem space_four : space 4 = "    " := by decide

/-- A fresh variable renders as its name. -/
theorem toString_index_var (index_name : Nat → String) (counter : Nat) :
    toString (index_var index_name counter) = some (index_name counter) := by
  simp [index_var, toString, toStringArgs, toStringDefault]

theorem bindBound_eq (index_name : Nat → String) (e : Expr) (st : LowerState) :
    bindBound index_name e st = (toString e).map (fun se =>
      { counter := st.counter + 1
        code := st.code ++ ("    let " ++ index_name st.counter ++ " = " ++ se ++ "\n")
        BeforeSubstitution := st.BeforeSubstitution ++ [e]
        AfterSubstitution := st.AfterSubstitution ++ [index_var index_name st.counter] }) := by
  simp [bindBound, toString_index_var, space_four]

theorem bindAll_append (index_name : Nat → String) (es₁ es₂ : List Expr) (st : LowerState) :
    bindAll index_name (es₁ ++ es₂) st
      = (bindAll index_name es₁ st).bind (bindAll index_name es₂) := by
  induction es₁ generalizing st with
  | nil => simp [bindAll]
  | cons e es ih =>
    simp only [List.cons_append, bindAll]
    cases bindBound index_name e st with
    | none => rfl
    | some s => simp [ih]

theorem bindAll_eq (index_name : Nat → String) (es : List Expr) (st : LowerState) :
    bindAll index_name es st = (toStringArgs es).map (fun rendered =>
      { counter := st.counter + es.length
        code := st.code ++ String.join (letLines index_name st.counter rendered)
        BeforeSubstitution := st.BeforeSubstitution ++ es
        AfterSubstitution := st.AfterSubstitution ++ freshVars index_name st.counter es.length })
    := by
  induction es generalizing st with
  | nil => simp [bindAll, toStringArgs, letLines, freshVars, join_nil]
  | cons e es ih =>
    simp only [bindAll, bindBound_eq, toStringArgs]
    cases he : toString e with
    | none => rfl
    | some se =>
      simp only [Option.map_some', Option.some_bind, ih]
      cases hes : toStringArgs es with
      | none => rfl
      | some rs =>
        simp only [Option.map_some', letLines, freshVars, List.length_cons, List.range'_succ,
          List.zipWith_cons_cons, List.map_cons, join_cons, String.append_assoc,
          List.append_assoc, List.singleton_append]
        congr 2
        omega

theorem scanItem_eq (index_name : Nat → String) (Item : RHSItem) (st : LowerState)
    (conj : List Nat) :
    scanItem index_name Item (st, conj)
      = if itemOK Item then
          (bindAll index_name (itemBounds Item) st).map (fun s => (s, conj ++ itemRefs Item))
        else none := by
  cases Item with
  | Production LHS => simp [scanItem, itemOK, itemBounds, itemRefs, bindAll]
  | other => simp [scanItem, itemOK]
  | Interval From To =>
    cases From <;> cases To <;>
      simp [scanItem, itemOK, itemBounds, itemRefs, bindAll, Bound.isNull, Bound.isConstant,
        Bound.symbolic?, Option.map_eq_bind, Function.comp_def, Option.bind_assoc]

theorem scanItems_eq (index_name : Nat → String) (Items : List RHSItem) (st : LowerState)
    (conj : List Nat) :
    scanItems index_name Items (st, conj)
      = if Items.all itemOK then
          (bindAll index_name (Items.flatMap itemBounds) st).map
            (fun s => (s, conj ++ Items.flatMap itemRefs))
        else none := by
  induction Items generalizing st conj with
  | nil => simp [scanItems, bindAll]
  | cons Item rest ih =>
    simp only [scanItems, scanItem_eq, List.all_cons, List.flatMap_cons, bindAll_append]
    by_cases h1 : itemOK Item = true
    · simp only [h1, if_true, Bool.true_and]
      cases bindAll index_name (itemBounds Item) st with
      | none => simp
      | some s =>
        simp only [Option.map_some', Option.some_bind, ih, List.append_assoc]
    · simp [h1]

theorem scanAlternatives_eq (index_name : Nat → String) (RHS : List (List RHSItem))
    (st : LowerState) (Productions : List (List Nat)) :
    scanAlternatives index_name RHS (st, Productions)
      = if RHS.all (fun Items => Items.all itemOK) then
          (bindAll index_name (RHS.flatMap (fun Items => Items.flatMap itemBounds)) st).map
            (fun s => (s, Productions ++
              (RHS.map (fun Items => Items.flatMap itemRefs)).filter (fun c => !c.isEmpty)))
        else none := by
  induction RHS generalizing st Productions with
  | nil => simp [scanAlternatives, bindAll]
  | cons Items rest ih =>
    simp only [scanAlternatives, scanItems_eq, List.all_cons, List.flatMap_cons,
      bindAll_append, List.map_cons, List.nil_append]
    by_cases h1 : Items.all itemOK = true
    · simp only [h1, if_true, Bool.true_and]
      cases bindAll index_name (Items.flatMap itemBounds) st with
      | none => simp
      | some s =>
        simp only [Option.map_some', Option.some_bind, ih]
        by_cases h2 : (Items.flatMap itemRefs).isEmpty = true
        · simp [h2, List.filter_cons]
        · simp [h2, List.filter_cons]
    · simp [h1]

/-- The scan of the alternatives in closed form: it succeeds exactly when every item is
accepted and every symbolic bound expression renders, allocates one fresh variable per
symbolic bound in scan order, and records the conjunctions of the referenced ids. -/
theorem Production2DDL_scan_eq (index_name : Nat → String) (P : Production) (counter : Nat) :
    Production2DDL_scan index_name P counter
      = if scanOK P then
          (toStringArgs (symbolicBounds P)).map (fun rendered =>
            ({ counter := counter + (symbolicBounds P).length
               code := lhsText P.LHS ++ String.join (letLines index_name counter rendered)
               BeforeSubstitution := symbolicBounds P
               AfterSubstitution := freshVars index_name counter (symbolicBounds P).length },
             conjunctions P))
        else none := by
  simp only [Production2DDL_scan, scanAlternatives_eq, bindAll_eq, scanOK, symbolicBounds,
    conjunctions, List.nil_append, String.empty_append, Option.map_map]
  rfl

/-! ### The guard lines and the whole definition text -/

theorem guardText_append (Before After : List Expr) (cs₁ cs₂ : List Expr) :
    guardText Before After (cs₁ ++ cs₂)
      = (guardText Before After cs₁).bind (fun t₁ =>
          (guardText Before After cs₂).map (fun t₂ => t₁ ++ t₂)) := by
  induction cs₁ with
  | nil => simp [guardText]
  | cons c rest ih =>
    show guardText Before After (c :: (rest ++ cs₂)) = _
    rw [guardText, ih, guardText]
    cases guardLine Before After c with
    | none => rfl
    | some l =>
      cases guardText Before After rest with
      | none => rfl
      | some t₁ =>
        cases guardText Before After cs₂ with
        | none => rfl
        | some t₂ => simp [String.append_assoc]

theorem guardConjOps_eq (Before After : List Expr) (cs : List Expr) (code : String) :
    guardConjOps Before After cs code
      = (guardText Before After cs).map (fun t => code ++ t) := by
  induction cs generalizing code with
  | nil => simp [guardConjOps, guardText]
  | cons c rest ih =>
    simp only [guardConjOps, guardText, guardLine]
    by_cases ht : is_true c = true
    · simp only [ht, Bool.not_true, if_true, Option.some_bind, ih]
      simp
    · simp only [ht, Bool.not_false, if_true, if_false]
      cases toString (substitute Before After c) with
      | none => rfl
      | some s =>
        by_cases hs : s = ""
        · simp [hs, ih]
        · simp only [hs, if_false, ih, Option.map_some', Option.some_bind]
          cases guardText Before After rest with
          | none => rfl
          | some t => simp [String.append_assoc]

theorem guardAssertions_eq (Before After : List Expr) (Assertions : List Expr)
    (code : String) :
    guardAssertions Before After Assertions code
      = (guardText Before After
          (Assertions.flatMap (find_consecutive_ops .Z3_OP_AND))).map (fun t => code ++ t) := by
  induction Assertions generalizing code with
  | nil => simp [guardAssertions, guardText]
  | cons a rest ih =>
    simp only [guardAssertions, guardConjOps_eq, List.flatMap_cons, guardText_append]
    cases guardText Before After (find_consecutive_ops .Z3_OP_AND a) with
    | none => rfl
    | some t₁ =>
      simp only [Option.map_some', Option.some_bind, ih]
      cases guardText Before After (rest.flatMap (find_consecutive_ops .Z3_OP_AND)) with
      | none => rfl
      | some t => simp [String.append_assoc]

/-- The method `Production2DDL` in closed form: the header, one binding line per symbolic bound, the
alternation line, the guard lines of the conjuncts after substitution, and a blank line;
the allocator advances by the number of symbolic bounds. -/
theorem Production2DDL_eq (index_name : Nat → String) (P : Production) (counter : Nat) :
    Production2DDL index_name P counter
      = if scanOK P then
          (toStringArgs (symbolicBounds P)).bind (fun rendered =>
            (guardText (symbolicBounds P)
                (freshVars index_name counter (symbolicBounds P).length)
                (allConjuncts P)).map (fun g =>
              (lhsText P.LHS ++ String.join (letLines index_name counter rendered)
                ++ disj_parsers (conjunctions P) ++ g ++ "\n\n",
               counter + (symbolicBounds P).length)))
        else none := by
  simp only [Production2DDL, Production2DDL_scan_eq]
  by_cases hok : scanOK P = true
  · simp only [hok, if_true]
    cases toStringArgs (symbolicBounds P) with
    | none => rfl
    | some rendered =>
      simp only [Option.map_some', Option.some_bind]
      by_cases he : P.Assertions.isEmpty = true
      · have hnil : P.Assertions = [] := List.isEmpty_iff.mp he
        simp [he, allConjuncts, hnil, guardText]
      · simp only [he, Bool.not_false, if_true, guardAssertions_eq, allConjuncts,
          Option.map_map]
        congr 1
  · simp [hok]

/-! ### Fresh-variable bindings -/

theorem letLines_getElem (index_name : Nat → String) {es : List Expr} {rendered : List String}
    (hr : RendersTo es rendered) (counter i : Nat) (e : Expr) (hi : es[i]? = some e) :
    ∃ se, toString e = some se ∧
      (freshVars index_name counter es.length)[i]?
        = some (index_var index_name (counter + i)) ∧
      (letLines index_name counter rendered)[i]?
        = some ("    let " ++ index_name (counter + i) ++ " = " ++ se ++ "\n") := by
  induction hr generalizing counter i with
  | nil => simp at hi
  | @cons a s as ss h1 _ ih =>
    cases i with
    | zero =>
      simp only [List.getElem?_cons_zero, Option.some.injEq] at hi
      subst hi
      exact ⟨s, h1, by simp [freshVars, List.range'_succ],
        by simp [letLines, List.range'_succ]⟩
    | succ j =>
      simp only [List.getElem?_cons_succ] at hi
      obtain ⟨se, h2, h3, h4⟩ := ih (counter + 1) j hi
      refine ⟨se, h2, ?_, ?_⟩
      · have e1 : counter + (j + 1) = counter + 1 + j := by omega
        rw [e1, ← h3]
        simp [freshVars, List.range'_succ]
      · have e1 : counter + (j + 1) = counter + 1 + j := by omega
        rw [e1, ← h4]
        simp [letLines, List.range'_succ]

theorem letLines_length (index_name : Nat → String) (counter : Nat) (rendered : List String) :
    (letLines index_name counter rendered).length = rendered.length := by
  simp [letLines]

theorem freshVars_length (index_name : Nat → String) (counter k : Nat) :
    (freshVars index_name counter k).length = k := by
  simp [freshVars]

/-- C4: for a production whose items the scan accepts and whose symbolic bound expressions
render (to `rendered`), the scan allocates one fresh variable per symbolic bound and none
per constant bound, in scan order (alternatives in order, items left to right, `From`
before `To`); it appends one line per allocation, four blanks ++ `let ` ++ text of the
variable ++ ` = ` ++ text of the bound expression ++ newline, and one pair (bound
expression, variable) to the substitution, so that lines, substitution entries and
symbolic bounds correspond one to one and in the same order. -/
theorem Production2DDL_fresh_bindings (index_name : Nat → String) (P : Production)
    (counter : Nat) (rendered : List String)
    (hok : scanOK P = true) (hr : RendersTo (symbolicBounds P) rendered) :
    Production2DDL_scan index_name P counter
      = some ({ counter := counter + (symbolicBounds P).length
                code := lhsText P.LHS ++ String.join (letLines index_name counter rendered)
                BeforeSubstitution := symbolicBounds P
                AfterSubstitution :=
                  freshVars index_name counter (symbolicBounds P).length },
              conjunctions P) ∧
    Production2DDL index_name P counter
      = (guardText (symbolicBounds P)
            (freshVars index_name counter (symbolicBounds P).length)
            (allConjuncts P)).map (fun g =>
          (lhsText P.LHS ++ String.join (letLines index_name counter rendered)
            ++ disj_parsers (conjunctions P) ++ g ++ "\n\n",
           counter + (symbolicBounds P).length)) ∧
    (letLines index_name counter rendered).length = (symbolicBounds P).length ∧
    (freshVars index_name counter (symbolicBounds P).length).length
      = (symbolicBounds P).length ∧
    (∀ i e, (symbolicBounds P)[i]? = some e →
      ∃ sv se, toString (index_var index_name (counter + i)) = some sv ∧
        toString e = some se ∧
        (freshVars index_name counter (symbolicBounds P).length)[i]?
          = some (index_var index_name (counter + i)) ∧
        (letLines index_name counter rendered)[i]?
          = some ("    let " ++ sv ++ " = " ++ se ++ "\n")) ∧
    (∀ f t c k,
      itemBounds (.Interval (.SymbolicBound f) (.SymbolicBound t)) = [f, t] ∧
      itemBounds (.Interval (.SymbolicBound f) (.ConstantBound c)) = [f] ∧
      itemBounds (.Interval (.ConstantBound c) (.SymbolicBound t)) = [t] ∧
      itemBounds (.Interval (.ConstantBound c) (.ConstantBound k)) = []) := by
  have hs := toStringArgs_of_rendersTo hr
  have hlen : rendered.length = (symbolicBounds P).length := (List.Forall₂.length_eq hr).symm
  refine ⟨?_, ?_, ?_, ?_, ?_, ?_⟩
  · rw [Production2DDL_scan_eq, if_pos hok, hs]; rfl
  · rw [Production2DDL_eq, if_pos hok, hs]; rfl
  · rw [letLines_length, hlen]
  · exact freshVars_length _ _ _
  · intro i e hi
    obtain ⟨se, h1, h2, h3⟩ := letLines_getElem index_name hr counter i e hi
    exact ⟨index_name (counter + i), se, toString_index_var _ _, h1, h2, h3⟩
  · intro f t c k
    exact ⟨rfl, rfl, rfl, rfl⟩

theorem Production2DDL_fresh_bindings_witness :
    scanOK exampleProduction = true ∧
    RendersTo (symbolicBounds exampleProduction) ["x", "y", "0x0000000000000009"] ∧
    Production2DDL_scan exampleName exampleProduction 5
      = some ({ counter := 5 + (symbolicBounds exampleProduction).length
                code := lhsText exampleProduction.LHS ++
                  String.join (letLines exampleName 5 ["x", "y", "0x0000000000000009"])
                BeforeSubstitution := symbolicBounds exampleProduction
                AfterSubstitution :=
                  freshVars exampleName 5 (symbolicBounds exampleProduction).length },
              conjunctions exampleProduction) ∧
    symbolicBounds exampleProduction
      = [exampleVar "x", exampleVar "y", .numeral 9 "Int" []] ∧
    Production2DDL exampleName exampleProduction 5
      = some ("def L1 = \n  block\n    let len = Len\n    let ii5 = x\n    let ii6 = y\n"
          ++ "    let ii7 = 0x0000000000000009\n    \x7b L2; \x7d\n\n\n", 8) :=
  have hr : RendersTo (symbolicBounds exampleProduction) ["x", "y", "0x0000000000000009"] :=
    rendersTo_of_toStringArgs (by decide)
  ⟨by decide, hr,
   (Production2DDL_fresh_bindings exampleName exampleProduction 5 _ (by decide) hr).1,
   by decide, by decide⟩

/-! ### Productions without symbolic bounds -/

mutual
/-- Substituting nothing changes nothing. -/
theorem substitute_nil : ∀ e : Expr, substitute [] [] e = e
  | .numeral v n p => by simp [substitute, substLookup]
  | .app k n p f args => by
    simp only [substitute, substLookup]
    rw [substituteArgs_nil args]
theorem substituteArgs_nil : ∀ es : List Expr, substituteArgs [] [] es = es
  | [] => by simp [substituteArgs]
  | a :: rest => by
    simp only [substituteArgs]
    rw [substitute_nil a, substituteArgs_nil rest]
end

theorem constantItem_spec (Item : RHSItem) (h : constantItem Item = true) :
    itemOK Item = true ∧ itemBounds Item = [] := by
  cases Item with
  | Production LHS => exact ⟨rfl, rfl⟩
  | other => simp [constantItem] at h
  | Interval From To =>
    cases From <;> cases To <;> simp [constantItem] at h
    exact ⟨rfl, rfl⟩

theorem allConstantBounds_spec (P : Production) (h : allConstantBounds P = true) :
    scanOK P = true ∧ symbolicBounds P = [] := by
  simp only [allConstantBounds, List.all_eq_true] at h
  constructor
  · simp only [scanOK, List.all_eq_true]
    intro Items hI Item hIt
    exact (constantItem_spec Item (h Items hI Item hIt)).1
  · simp only [symbolicBounds, List.flatMap_eq_nil_iff]
    intro Items hI Item hIt
    exact (constantItem_spec Item (h Items hI Item hIt)).2

theorem lhsText_eq (LHS : Nat) :
    lhsText LHS = "def " ++ definitionName LHS ++ " = \n  block\n    let len = Len\n" := by
  unfold lhsText definitionName
  by_cases h : LHS = 0
  · simp only [h, if_true, space_two, space_four]; decide
  · simp only [h, if_false, space_two, space_four]
    simp [String.append_assoc]
    rfl

/-- C6: for a production in which every interval has two constant bounds, the scan allocates
no fresh variable (the allocator is unchanged), leaves the substitution empty and adds no
line to the header, whose only binding is `let len = Len`; the definition text is the
header, then the alternation line, the guard lines (rendered from the conjuncts as they
are) and the closing blank line. -/
theorem Production2DDL_constant_bounds (index_name : Nat → String) (P : Production)
    (counter : Nat) (g : String)
    (hc : allConstantBounds P = true)
    (hg : guardText [] [] (allConjuncts P) = some g) :
    Production2DDL_scan index_name P counter
      = some ({ counter := counter, code := lhsText P.LHS,
                BeforeSubstitution := [], AfterSubstitution := [] }, conjunctions P) ∧
    Production2DDL index_name P counter
      = some (lhsText P.LHS ++ disj_parsers (conjunctions P) ++ g ++ "\n\n", counter) ∧
    lhsText P.LHS = "def " ++ definitionName P.LHS ++ " = \n  block\n    let len = Len\n" ∧
    (∀ e, substitute [] [] e = e) := by
  obtain ⟨hok, hb⟩ := allConstantBounds_spec P hc
  refine ⟨?_, ?_, lhsText_eq _, substitute_nil⟩
  · rw [Production2DDL_scan_eq, if_pos hok, hb]
    simp [toStringArgs, letLines, freshVars, join_nil]
  · rw [Production2DDL_eq, if_pos hok, hb]
    simp [toStringArgs, letLines, freshVars, join_nil, hg]

theorem Production2DDL_constant_bounds_witness :
    allConstantBounds
      ⟨7, [[.Interval (.ConstantBound 0) (.ConstantBound 3), .Production 2],
           [.Interval (.ConstantBound 4) (.ConstantBound (-1))]],
        [.app .Z3_OP_LE "<=" [] false [exampleVar "x", exampleVar "y"]]⟩ = true ∧
    guardText [] []
      (allConjuncts
        ⟨7, [[.Interval (.ConstantBound 0) (.ConstantBound 3), .Production 2],
             [.Interval (.ConstantBound 4) (.ConstantBound (-1))]],
          [.app .Z3_OP_LE "<=" [] false [exampleVar "x", exampleVar "y"]]⟩)
      = some "\n    ((x <= y)) is true" ∧
    Production2DDL exampleName
      ⟨7, [[.Interval (.ConstantBound 0) (.ConstantBound 3), .Production 2],
           [.Interval (.ConstantBound 4) (.ConstantBound (-1))]],
        [.app .Z3_OP_LE "<=" [] false [exampleVar "x", exampleVar "y"]]⟩ 5
      = some (lhsText 7 ++ disj_parsers [[2]] ++ "\n    ((x <= y)) is true" ++ "\n\n", 5) ∧
    lhsText 7 ++ disj_parsers [[2]] ++ "\n    ((x <= y)) is true" ++ "\n\n"
      = "def L7 = \n  block\n    let len = Len\n    \x7b L2; \x7d\n\n    ((x <= y)) is true\n\n" :=
  ⟨by decide, by decide,
   (Production2DDL_constant_bounds exampleName _ 5 _ (by decide) (by decide)).2.1,
   by decide⟩

/-! ### The entry production with one constant interval -/

/-- C8 (as the code has it): the entry production with a single alternative of one interval
with two constant bounds and no assertions is lowered to the `Main` header with the length
binding, an alternation line that is empty apart from its four blanks (the alternative has
no production reference, so it contributes no conjunction and no brace pair), and the
closing blank line. -/
theorem Production2DDL_entry_constant (index_name : Nat → String) (a b : Int)
    (counter : Nat) :
    Production2DDL index_name
        ⟨0, [[.Interval (.ConstantBound a) (.ConstantBound b)]], []⟩ counter
      = some ("def Main = \n  block\n    let len = Len\n" ++ "    \n" ++ "\n\n", counter) := by
  rw [Production2DDL_eq]
  simp [scanOK, itemOK, symbolicBounds, itemBounds, conjunctions, itemRefs, allConjuncts,
    Bound.isNull, Bound.isConstant, Bound.symbolic?, toStringArgs, guardText, letLines,
    freshVars, join_nil]
  decide

/-- C8, as stated, fails: the text lowered from the entry production with one constant
interval and no assertions contains no brace at all, hence no empty conjunction. -/
theorem Production2DDL_entry_constant_no_brace :
    ¬ ∃ r, Production2DDL exampleName
          ⟨0, [[.Interval (.ConstantBound 0) (.ConstantBound 3)]], []⟩ 0 = some r ∧
        ('\x7b' ∈ r.1.data ∨ '\x7d' ∈ r.1.data) := by
  rintro ⟨r, h, hb⟩
  have e : Production2DDL exampleName
      ⟨0, [[.Interval (.ConstantBound 0) (.ConstantBound 3)]], []⟩ 0
      = some ("def Main = \n  block\n    let len = Len\n    \n\n\n", 0) := by decide
  rw [e] at h
  cases h
  revert hb
  decide

/-! ### Conjuncts that produce no guard line -/

theorem find_consecutive_ops_args_append (OpKind : DeclKind) (xs ys : List Expr) :
    find_consecutive_ops_args OpKind (xs ++ ys)
      = find_consecutive_ops_args OpKind xs ++ find_consecutive_ops_args OpKind ys := by
  induction xs with
  | nil => simp [find_consecutive_ops_args]
  | cons a rest ih =>
    show find_consecutive_ops_args OpKind (a :: (rest ++ ys)) = _
    simp only [find_consecutive_ops_args, ih, List.append_assoc]

/-- A conjunct that adds the empty text can be left out of the conjunct list. -/
theorem guardText_skip (Before After : List Expr) (c : Expr) (X Y : List Expr)
    (h : guardLine Before After c = some "") :
    guardText Before After (X ++ [c] ++ Y) = guardText Before After (X ++ Y) := by
  have h1 : guardText Before After ([c] ++ Y) = guardText Before After Y := by
    show guardText Before After (c :: Y) = _
    rw [guardText, h]
    cases guardText Before After Y with
    | none => rfl
    | some t => simp
  rw [List.append_assoc, guardText_append, h1, ← guardText_append]

/-- The definition text depends on the assertions only through their conjunct list. -/
theorem Production2DDL_congr (index_name : Nat → String) (LHS : Nat)
    (RHS : List (List RHSItem)) (as₁ as₂ : List Expr) (counter : Nat)
    (h : guardText (symbolicBounds ⟨LHS, RHS, as₁⟩)
          (freshVars index_name counter (symbolicBounds ⟨LHS, RHS, as₁⟩).length)
          (allConjuncts ⟨LHS, RHS, as₁⟩)
        = guardText (symbolicBounds ⟨LHS, RHS, as₁⟩)
          (freshVars index_name counter (symbolicBounds ⟨LHS, RHS, as₁⟩).length)
          (allConjuncts ⟨LHS, RHS, as₂⟩)) :
    Production2DDL index_name ⟨LHS, RHS, as₁⟩ counter
      = Production2DDL index_name ⟨LHS, RHS, as₂⟩ counter := by
  rw [Production2DDL_eq, Production2DDL_eq, h]
  rfl

theorem guardLine_true (Before After : List Expr) (name : String) (params : List Param)
    (naming : Bool) (args : List Expr) :
    guardLine Before After (.app .Z3_OP_TRUE name params naming args) = some "" := by
  simp [guardLine, is_true]

/-- C9: the literal `true` adds no guard line, as an assertion or as a conjunct of a
top-level conjunction: the definition text is the one obtained without it. -/
theorem Production2DDL_true_no_guard (index_name : Nat → String) (LHS : Nat)
    (RHS : List (List RHSItem)) (pre post : List Expr) (counter : Nat)
    (tn : String) (tp : List Param) (tf : Bool) (targs : List Expr)
    (an : String) (ap : List Param) (af : Bool) (xs ys : List Expr)
    (Before After : List Expr) :
    guardLine Before After (.app .Z3_OP_TRUE tn tp tf targs) = some "" ∧
    Production2DDL index_name ⟨LHS, RHS, pre ++ [.app .Z3_OP_TRUE tn tp tf targs] ++ post⟩
        counter
      = Production2DDL index_name ⟨LHS, RHS, pre ++ post⟩ counter ∧
    Production2DDL index_name
        ⟨LHS, RHS,
          pre ++ [.app .Z3_OP_AND an ap af (xs ++ [.app .Z3_OP_TRUE tn tp tf targs] ++ ys)]
            ++ post⟩ counter
      = Production2DDL index_name
        ⟨LHS, RHS, pre ++ [.app .Z3_OP_AND an ap af (xs ++ ys)] ++ post⟩ counter := by
  refine ⟨guardLine_true _ _ _ _ _ _, ?_, ?_⟩
  · apply Production2DDL_congr
    simp only [allConjuncts, List.flatMap_append, List.flatMap_cons, List.flatMap_nil,
      List.append_nil, find_consecutive_ops]
    simp only [DeclKind.noConfusion, if_false, reduceCtorEq]
    exact guardText_skip _ _ _ _ _ (guardLine_true _ _ _ _ _ _)
  · apply Production2DDL_congr
    simp only [allConjuncts, List.flatMap_append, List.flatMap_cons, List.flatMap_nil,
      List.append_nil, find_consecutive_ops, if_true, find_consecutive_ops_args_append,
      find_consecutive_ops_args]
    simp only [DeclKind.noConfusion, if_false, reduceCtorEq, List.append_nil]
    have k1 : ∀ (A B C D : List Expr) (t : Expr),
        A ++ (B ++ [t] ++ C) ++ D = (A ++ B) ++ [t] ++ (C ++ D) := by
      intros; simp [List.append_assoc]
    have k2 : ∀ (A B C D : List Expr), A ++ (B ++ C) ++ D = (A ++ B) ++ (C ++ D) := by
      intros; simp [List.append_assoc]
    rw [k1, k2]
    exact guardText_skip _ _ _ _ _ (guardLine_true _ _ _ _ _ _)

theorem substLookup_none (e : Expr) (src dst : List Expr) (h : e ∉ src) :
    substLookup e src dst = none := by
  induction src generalizing dst with
  | nil => cases dst <;> rfl
  | cons s src ih =>
    cases dst with
    | nil => rfl
    | cons d dst =>
      simp only [List.mem_cons, not_or] at h
      simp [substLookup, ih dst h.2, h.1]

/-- A node flagged as a naming equality renders as the empty text. -/
theorem toString_naming_eq (name : String) (params : List Param) (args : List Expr) :
    toString (.app .Z3_OP_EQ name params true args) = some "" := by
  unfold toString
  rfl

theorem guardLine_naming (Before After : List Expr) (name : String) (params : List Param)
    (args : List Expr) (h : Expr.app .Z3_OP_EQ name params true args ∉ Before) :
    guardLine Before After (.app .Z3_OP_EQ name params true args) = some "" := by
  simp [guardLine, is_true, substitute, substLookup_none _ _ _ h, toString_naming_eq]

/-- C10: a naming equality that is not itself one of the recorded bound expressions adds no
guard line, as an assertion or as a conjunct of a top-level conjunction, whatever the
substitution does to its sides: after substitution it still renders as the empty text and
is skipped, so the definition text is the one obtained without it. -/
theorem Production2DDL_naming_no_guard (index_name : Nat → String) (LHS : Nat)
    (RHS : List (List RHSItem)) (pre post : List Expr) (counter : Nat)
    (en : String) (ep : List Param) (eargs : List Expr)
    (an : String) (ap : List Param) (af : Bool) (xs ys : List Expr)
    (hkey : Expr.app .Z3_OP_EQ en ep true eargs ∉ symbolicBounds ⟨LHS, RHS, []⟩) :
    (∀ After, toString (substitute (symbolicBounds ⟨LHS, RHS, []⟩) After
        (.app .Z3_OP_EQ en ep true eargs)) = some "") ∧
    Production2DDL index_name ⟨LHS, RHS, pre ++ [.app .Z3_OP_EQ en ep true eargs] ++ post⟩
        counter
      = Production2DDL index_name ⟨LHS, RHS, pre ++ post⟩ counter ∧
    Production2DDL index_name
        ⟨LHS, RHS,
          pre ++ [.app .Z3_OP_AND an ap af (xs ++ [.app .Z3_OP_EQ en ep true eargs] ++ ys)]
            ++ post⟩ counter
      = Production2DDL index_name
        ⟨LHS, RHS, pre ++ [.app .Z3_OP_AND an ap af (xs ++ ys)] ++ post⟩ counter := by
  have hg : ∀ as After, guardLine (symbolicBounds ⟨LHS, RHS, as⟩) After
      (.app .Z3_OP_EQ en ep true eargs) = some "" :=
    fun _ _ => guardLine_naming _ _ _ _ _ hkey
  refine ⟨?_, ?_, ?_⟩
  · intro After
    simp [substitute, substLookup_none _ _ _ hkey, toString_naming_eq]
  · apply Production2DDL_congr
    simp only [allConjuncts, List.flatMap_append, List.flatMap_cons, List.flatMap_nil,
      List.append_nil, find_consecutive_ops]
    simp only [DeclKind.noConfusion, if_false, reduceCtorEq]
    exact guardText_skip _ _ _ _ _ (hg _ _)
  · apply Production2DDL_congr
    simp only [allConjuncts, List.flatMap_append, List.flatMap_cons, List.flatMap_nil,
      List.append_nil, find_consecutive_ops, if_true, find_consecutive_ops_args_append,
      find_consecutive_ops_args]
    simp only [DeclKind.noConfusion, if_false, reduceCtorEq, List.append_nil]
    have k1 : ∀ (A B C D : List Expr) (t : Expr),
        A ++ (B ++ [t] ++ C) ++ D = (A ++ B) ++ [t] ++ (C ++ D) := by
      intros; simp [List.append_assoc]
    have k2 : ∀ (A B C D : List Expr), A ++ (B ++ C) ++ D = (A ++ B) ++ (C ++ D) := by
      intros; simp [List.append_assoc]
    rw [k1, k2]
    exact guardText_skip _ _ _ _ _ (hg _ _)

theorem Production2DDL_naming_no_guard_witness :
    Expr.app .Z3_OP_EQ "=" [] true [exampleVar "x", exampleVar "field"]
      ∉ symbolicBounds ⟨3, [[.Interval (.SymbolicBound (exampleVar "x")) (.ConstantBound 8)]],
          []⟩ ∧
    Production2DDL exampleName
        ⟨3, [[.Interval (.SymbolicBound (exampleVar "x")) (.ConstantBound 8)]],
          [] ++ [.app .Z3_OP_EQ "=" [] true [exampleVar "x", exampleVar "field"]] ++ []⟩ 0
      = Production2DDL exampleName
        ⟨3, [[.Interval (.SymbolicBound (exampleVar "x")) (.ConstantBound 8)]], [] ++ []⟩ 0 ∧
    Production2DDL exampleName
        ⟨3, [[.Interval (.SymbolicBound (exampleVar "x")) (.ConstantBound 8)]], []⟩ 0
      = some ("def L3 = \n  block\n    let len = Len\n    let ii0 = x\n    \n\n\n", 1) :=
  ⟨by decide,
   (Production2DDL_naming_no_guard exampleName 3 _ [] [] 0 "=" [] _ "and" [] false [] []
      (by decide)).2.1,
   by decide⟩

/-! ### One interval with a symbolic `From` and a constant `To` -/

theorem refsOnly_spec (Items : List RHSItem) (h : refsOnly Items = true) :
    Items.all itemOK = true ∧ Items.flatMap itemBounds = [] := by
  simp only [refsOnly, List.all_eq_true] at h
  constructor
  · simp only [List.all_eq_true]
    intro Item hIt
    have := h Item hIt
    cases Item <;> simp_all [itemOK]
  · simp only [List.flatMap_eq_nil_iff]
    intro Item hIt
    have := h Item hIt
    cases Item <;> simp_all [itemBounds]

theorem refsOnly_alts_spec (alts : List (List RHSItem)) (h : alts.all refsOnly = true) :
    alts.all (fun Items => Items.all itemOK) = true ∧
    alts.flatMap (fun Items => Items.flatMap itemBounds) = [] := by
  simp only [List.all_eq_true] at h
  constructor
  · simp only [List.all_eq_true]
    intro Items hI
    exact List.all_eq_true.mp (refsOnly_spec Items (h Items hI)).1
  · simp only [List.flatMap_eq_nil_iff]
    intro Items hI
    exact List.flatMap_eq_nil_iff.mp (refsOnly_spec Items (h Items hI)).2

theorem occurs_self_index_var (index_name : Nat → String) (counter : Nat) :
    occurs (index_var index_name counter) (index_var index_name counter) = true := by
  simp [index_var, occurs]

mutual
/-- Replacing `e` by a fresh variable either changes nothing or leaves the variable in the
result. -/
theorem substitute_fixed_or_occurs (index_name : Nat → String) (counter : Nat) (e : Expr) :
    ∀ c : Expr, substitute [e] [index_var index_name counter] c = c ∨
      occurs (index_var index_name counter)
        (substitute [e] [index_var index_name counter] c) = true
  | .numeral v n p => by
    by_cases h : Expr.numeral v n p = e
    · right; simp [substitute, substLookup, h, occurs_self_index_var]
    · left; simp [substitute, substLookup, h]
  | .app k n p f args => by
    by_cases h : Expr.app k n p f args = e
    · right; simp [substitute, substLookup, h, occurs_self_index_var]
    · rcases substituteArgs_fixed_or_occurs index_name counter e args with h1 | h1
      · left; simp [substitute, substLookup, h, h1]
      · right; simp [substitute, substLookup, h, occurs, h1]
theorem substituteArgs_fixed_or_occurs (index_name : Nat → String) (counter : Nat)
    (e : Expr) :
    ∀ cs : List Expr, substituteArgs [e] [index_var index_name counter] cs = cs ∨
      occursArgs (index_var index_name counter)
        (substituteArgs [e] [index_var index_name counter] cs) = true
  | [] => by left; simp [substituteArgs]
  | c :: rest => by
    rcases substitute_fixed_or_occurs index_name counter e c with h1 | h1
    · rcases substituteArgs_fixed_or_occurs index_name counter e rest with h2 | h2
      · left; simp [substituteArgs, h1, h2]
      · right; simp [substituteArgs, occursArgs, h2]
    · right; simp [substituteArgs, occursArgs, h1]
end

mutual
/-- After `e` is replaced by a fresh variable that does not occur in `e`, no occurrence of
`e` is left. -/
theorem substitute_removes (index_name : Nat → String) (counter : Nat) (e : Expr)
    (hfresh : occurs (index_var index_name counter) e = false) :
    ∀ c : Expr, occurs e (substitute [e] [index_var index_name counter] c) = false
  | .numeral v n p => by
    by_cases h : Expr.numeral v n p = e
    · have hne : index_var index_name counter ≠ e := by
        intro h'; rw [← h', occurs_self_index_var] at hfresh; cases hfresh
      simp [substitute, substLookup, h, index_var, occurs, occursArgs]
      simpa [index_var] using hne
    · simp [substitute, substLookup, h, occurs]
  | .app k n p f args => by
    by_cases h : Expr.app k n p f args = e
    · have hne : index_var index_name counter ≠ e := by
        intro h'; rw [← h', occurs_self_index_var] at hfresh; cases hfresh
      simp [substitute, substLookup, h, index_var, occurs, occursArgs]
      simpa [index_var] using hne
    · have ih := substituteArgs_removes index_name counter e hfresh args
      simp only [substitute, substLookup, h, if_false, occurs, ih, Bool.or_false,
        decide_eq_false_iff_not]
      rcases substituteArgs_fixed_or_occurs index_name counter e args with h1 | h1
      · rw [h1]; exact h
      · intro h'
        have : occurs (index_var index_name counter)
            (Expr.app k n p f (substituteArgs [e] [index_var index_name counter] args))
            = true := by simp [occurs, h1]
        rw [h', hfresh] at this
        cases this
theorem substituteArgs_removes (index_name : Nat → String) (counter : Nat) (e : Expr)
    (hfresh : occurs (index_var index_name counter) e = false) :
    ∀ cs : List Expr, occursArgs e (substituteArgs [e] [index_var index_name counter] cs)
      = false
  | [] => by simp [substituteArgs, occursArgs]
  | c :: rest => by
    simp [substituteArgs, occursArgs, substitute_removes index_name counter e hfresh c,
      substituteArgs_removes index_name counter e hfresh rest]
end

mutual
/-- Where `e` occurred, the fresh variable occurs after the replacement. -/
theorem substitute_introduces (index_name : Nat → String) (counter : Nat) (e : Expr) :
    ∀ c : Expr, occurs e c = true →
      occurs (index_var index_name counter)
        (substitute [e] [index_var index_name counter] c) = true
  | .numeral v n p => by
    intro h
    simp only [occurs, decide_eq_true_eq] at h
    simp [substitute, substLookup, h, occurs_self_index_var]
  | .app k n p f args => by
    intro h
    by_cases he : Expr.app k n p f args = e
    · simp [substitute, substLookup, he, occurs_self_index_var]
    · simp only [occurs, he, decide_False, Bool.false_or] at h
      have ih := substituteArgs_introduces index_name counter e args h
      simp [substitute, substLookup, he, occurs, ih]
theorem substituteArgs_introduces (index_name : Nat → String) (counter : Nat) (e : Expr) :
    ∀ cs : List Expr, occursArgs e cs = true →
      occursArgs (index_var index_name counter)
        (substituteArgs [e] [index_var index_name counter] cs) = true
  | [] => by simp [occursArgs]
  | c :: rest => by
    intro h
    simp only [occursArgs, Bool.or_eq_true] at h
    rcases h with h | h
    · simp [substituteArgs, occursArgs, substitute_introduces index_name counter e c h]
    · simp [substituteArgs, occursArgs, substituteArgs_introduces index_name counter e rest h]
end

/-- C5: a production whose only interval has the symbolic `From` bound `e` and a constant
`To` bound (every other item being a production reference) gets exactly one fresh-variable
binding, `let v = ` text of `e`, and the one-entry substitution `e ↦ v`; every conjunct that
is not the literal true is rendered from the conjunct with `e` replaced by `v`: when `v` is
fresh for `e`, no occurrence of `e` is left in it, and `v` occurs in it whenever `e`
occurred in the conjunct. -/
theorem Production2DDL_symbolic_from (index_name : Nat → String) (LHS : Nat)
    (alts₁ alts₂ : List (List RHSItem)) (items₁ items₂ : List RHSItem)
    (e : Expr) (k : Int) (Assertions : List Expr) (counter : Nat) (se : String)
    (h1 : alts₁.all refsOnly = true) (h2 : alts₂.all refsOnly = true)
    (h3 : refsOnly items₁ = true) (h4 : refsOnly items₂ = true)
    (hse : toString e = some se) :
    Production2DDL_scan index_name
        ⟨LHS, alts₁ ++ [items₁ ++ [.Interval (.SymbolicBound e) (.ConstantBound k)] ++ items₂]
          ++ alts₂, Assertions⟩ counter
      = some ({ counter := counter + 1
                code := lhsText LHS ++ ("    let " ++ index_name counter ++ " = " ++ se ++ "\n")
                BeforeSubstitution := [e]
                AfterSubstitution := [index_var index_name counter] },
              conjunctions ⟨LHS, alts₁ ++
                [items₁ ++ [.Interval (.SymbolicBound e) (.ConstantBound k)] ++ items₂]
                ++ alts₂, Assertions⟩) ∧
    toString (index_var index_name counter) = some (index_name counter) ∧
    Production2DDL index_name
        ⟨LHS, alts₁ ++ [items₁ ++ [.Interval (.SymbolicBound e) (.ConstantBound k)] ++ items₂]
          ++ alts₂, Assertions⟩ counter
      = (guardText [e] [index_var index_name counter]
          (Assertions.flatMap (find_consecutive_ops .Z3_OP_AND))).map (fun g =>
            (lhsText LHS ++ ("    let " ++ index_name counter ++ " = " ++ se ++ "\n")
              ++ disj_parsers (conjunctions ⟨LHS, alts₁ ++
                [items₁ ++ [.Interval (.SymbolicBound e) (.ConstantBound k)] ++ items₂]
                ++ alts₂, Assertions⟩) ++ g ++ "\n\n", counter + 1)) ∧
    (∀ c, is_true c = false →
      guardLine [e] [index_var index_name counter] c
        = (toString (substitute [e] [index_var index_name counter] c)).map (fun s =>
            if s = "" then "" else "\n    (" ++ s ++ ") is true")) ∧
    substitute [e] [index_var index_name counter] e = index_var index_name counter ∧
    (occurs (index_var index_name counter) e = false →
      ∀ c, occurs e (substitute [e] [index_var index_name counter] c) = false) ∧
    (∀ c, occurs e c = true →
      occurs (index_var index_name counter)
        (substitute [e] [index_var index_name counter] c) = true) := by
  obtain ⟨a1, b1⟩ := refsOnly_alts_spec alts₁ h1
  obtain ⟨a2, b2⟩ := refsOnly_alts_spec alts₂ h2
  obtain ⟨a3, b3⟩ := refsOnly_spec items₁ h3
  obtain ⟨a4, b4⟩ := refsOnly_spec items₂ h4
  have hok : scanOK ⟨LHS, alts₁ ++
      [items₁ ++ [.Interval (.SymbolicBound e) (.ConstantBound k)] ++ items₂]
      ++ alts₂, Assertions⟩ = true := by
    simp [scanOK, List.all_append, a1, a2, a3, a4, itemOK, Bound.isNull, Bound.isConstant,
      Bound.symbolic?]
  have hb : symbolicBounds ⟨LHS, alts₁ ++
      [items₁ ++ [.Interval (.SymbolicBound e) (.ConstantBound k)] ++ items₂]
      ++ alts₂, Assertions⟩ = [e] := by
    simp [symbolicBounds, List.flatMap_append, b1, b2, b3, b4, itemBounds, Bound.symbolic?]
  have hr : toStringArgs [e] = some [se] := by simp [toStringArgs, hse]
  refine ⟨?_, toString_index_var _ _, ?_, ?_, ?_, ?_, ?_⟩
  · rw [Production2DDL_scan_eq, if_pos hok, hb, hr]
    simp [letLines, freshVars, List.range'_succ, join_cons, join_nil]
  · rw [Production2DDL_eq, if_pos hok, hb, hr]
    simp [letLines, freshVars, List.range'_succ, join_cons, join_nil, allConjuncts,
      String.append_assoc]
  · intro c hc
    simp [guardLine, hc]
  · cases e <;> simp [substitute, substLookup]
  · intro hfresh c
    exact substitute_removes index_name counter e hfresh c
  · intro c hc
    exact substitute_introduces index_name counter e c hc

theorem Production2DDL_symbolic_from_witness :
    [[RHSItem.Production 2]].all refsOnly = true ∧
    ([] : List (List RHSItem)).all refsOnly = true ∧
    refsOnly [.Production 4] = true ∧ refsOnly [] = true ∧
    toString (.app .Z3_OP_ADD "+" [] false [exampleVar "x", exampleVar "y"])
      = some "(x + y)" ∧
    Production2DDL exampleName
        ⟨1, [[.Production 2]] ++ [[.Production 4] ++
            [.Interval (.SymbolicBound
                (.app .Z3_OP_ADD "+" [] false [exampleVar "x", exampleVar "y"]))
              (.ConstantBound 9)] ++ []] ++ [],
          [.app .Z3_OP_LE "<=" [] false
            [.app .Z3_OP_ADD "+" [] false [exampleVar "x", exampleVar "y"], exampleVar "z"]]⟩
        0
      = some ("def L1 = \n  block\n    let len = Len\n    let ii0 = (x + y)\n"
          ++ "    \x7b L2; \x7d <| \x7b L4; \x7d\n\n    ((ii0 <= z)) is true\n\n", 1) ∧
    occurs (.app .Z3_OP_ADD "+" [] false [exampleVar "x", exampleVar "y"])
      (substitute [.app .Z3_OP_ADD "+" [] false [exampleVar "x", exampleVar "y"]]
        [index_var exampleName 0]
        (.app .Z3_OP_LE "<=" [] false
            [.app .Z3_OP_ADD "+" [] false [exampleVar "x", exampleVar "y"], exampleVar "z"]))
      = false :=
  have t := Production2DDL_symbolic_from exampleName 1 [[.Production 2]] []
    [.Production 4] [] (.app .Z3_OP_ADD "+" [] false [exampleVar "x", exampleVar "y"]) 9
    [.app .Z3_OP_LE "<=" [] false
      [.app .Z3_OP_ADD "+" [] false [exampleVar "x", exampleVar "y"], exampleVar "z"]]
    0 "(x + y)" (by decide) (by decide) (by decide) (by decide) (by decide)
  ⟨by decide, by decide, by decide, by decide, by decide, by decide,
   t.2.2.2.2.2.1 (by decide) _⟩

/-! ### Fresh variables across a document -/

theorem freshVars_append (index_name : Nat → String) (counter k₁ k₂ : Nat) :
    freshVars index_name counter k₁ ++ freshVars index_name (counter + k₁) k₂
      = freshVars index_name counter (k₁ + k₂) := by
  simp [freshVars, ← List.map_append, List.range'_append_1, Nat.add_comm]

theorem index_var_injective (index_name : Nat → String)
    (hinj : Function.Injective index_name) : Function.Injective (index_var index_name) := by
  intro a b h
  simp only [index_var, Expr.app.injEq] at h
  exact hinj h.2.1

theorem freshVars_nodup (index_name : Nat → String) (hinj : Function.Injective index_name)
    (counter k : Nat) : (freshVars index_name counter k).Nodup :=
  List.Nodup.map (index_var_injective index_name hinj) (List.nodup_range' counter k)

/-- Lowering one production advances the allocator by its number of symbolic bounds, and the
scan of its alternatives binds exactly the variables allocated in between. -/
theorem Production2DDL_counter (index_name : Nat → String) (P : Production) (counter : Nat)
    (r : String × Nat) (h : Production2DDL index_name P counter = some r) :
    r.2 = counter + (symbolicBounds P).length ∧
    ∃ st, Production2DDL_scan index_name P counter = some st ∧
      st.1.counter = counter + (symbolicBounds P).length ∧
      st.1.AfterSubstitution = freshVars index_name counter (symbolicBounds P).length := by
  rw [Production2DDL_eq] at h
  rw [Production2DDL_scan_eq]
  by_cases hok : scanOK P = true
  · rw [if_pos hok] at h
    rw [if_pos hok]
    cases hr : toStringArgs (symbolicBounds P) with
    | none => rw [hr] at h; cases h
    | some rendered =>
      rw [hr] at h
      simp only [Option.some_bind] at h
      cases hg : guardText (symbolicBounds P)
          (freshVars index_name counter (symbolicBounds P).length) (allConjuncts P) with
      | none => rw [hg] at h; cases h
      | some g =>
        rw [hg] at h
        simp only [Option.map_some', Option.some.injEq] at h
        subst h
        exact ⟨rfl, _, rfl, rfl, rfl⟩
  · rw [if_neg hok] at h
    cases h

theorem dumpLoop_fresh (index_name : Nat → String) (Ps : List Production) (counter : Nat)
    (acc CodeVec : List String) (counter' : Nat)
    (h : dumpLoop index_name Ps counter acc = some (CodeVec, counter')) :
    counter' = counter + (Ps.map (fun P => (symbolicBounds P).length)).sum ∧
    dumpFreshVars index_name Ps counter
      = some (freshVars index_name counter
          (Ps.map (fun P => (symbolicBounds P).length)).sum) := by
  induction Ps generalizing counter acc with
  | nil =>
    simp only [dumpLoop, Option.some.injEq, Prod.mk.injEq] at h
    simp [h.2, dumpFreshVars, freshVars]
  | cons P rest ih =>
    simp only [dumpLoop] at h
    cases hP : Production2DDL index_name P counter with
    | none => rw [hP] at h; cases h
    | some r =>
      rw [hP] at h
      simp only [Option.some_bind] at h
      obtain ⟨h1, st, h2, h3, h4⟩ := Production2DDL_counter index_name P counter r hP
      obtain ⟨h5, h6⟩ := ih r.2 _ h
      constructor
      · rw [h5, h1]; simp [Nat.add_assoc]
      · simp only [dumpFreshVars, h2, Option.some_bind, h3, h4]
        rw [h1] at h6
        rw [h6]
        simp [freshVars_append]

theorem dumpLoop_blocks (index_name : Nat → String) (Ps : List Production) (counter : Nat)
    (acc CodeVec : List String) (counter' : Nat)
    (h : dumpLoop index_name Ps counter acc = some (CodeVec, counter')) :
    ∃ blocks, CodeVec = acc ++ blocks ∧ blocks.length = Ps.length ∧
      ∀ k P, Ps[k]? = some P →
        ∃ r, Production2DDL index_name P (counterAt Ps counter k) = some r ∧
          blocks[k]? = some r.1 := by
  induction Ps generalizing counter acc with
  | nil =>
    simp only [dumpLoop, Option.some.injEq, Prod.mk.injEq] at h
    exact ⟨[], by simp [h.1], rfl, by simp⟩
  | cons P rest ih =>
    simp only [dumpLoop] at h
    cases hP : Production2DDL index_name P counter with
    | none => rw [hP] at h; cases h
    | some r =>
      rw [hP] at h
      simp only [Option.some_bind] at h
      have hc := (Production2DDL_counter index_name P counter r hP).1
      obtain ⟨blocks, h1, h2, h3⟩ := ih r.2 _ h
      refine ⟨r.1 :: blocks, by simp [h1], by simp [h2], ?_⟩
      intro k Q hk
      cases k with
      | zero =>
        simp only [List.getElem?_cons_zero, Option.some.injEq] at hk
        subst hk
        exact ⟨r, by simpa [counterAt] using hP, by simp⟩
      | succ j =>
        simp only [List.getElem?_cons_succ] at hk
        obtain ⟨r', h4, h5⟩ := h3 j Q hk
        refine ⟨r', ?_, by simpa using h5⟩
        have e : counterAt (P :: rest) counter (j + 1) = counterAt rest r.2 j := by
          simp [counterAt, hc, Nat.add_assoc]
        rw [e]
        exact h4

theorem counterAt_succ (Ps : List Production) (counter k : Nat) (P : Production)
    (h : Ps[k]? = some P) :
    counterAt Ps counter (k + 1) = counterAt Ps counter k + (symbolicBounds P).length := by
  simp [counterAt, List.take_succ, h, Nat.add_assoc]

theorem counterAt_mono (Ps : List Production) (counter k k' : Nat) (h : k ≤ k') :
    counterAt Ps counter k ≤ counterAt Ps counter k' := by
  induction h with
  | refl => exact Nat.le_refl _
  | @step m _ ih =>
    refine Nat.le_trans ih ?_
    cases hm : Ps[m]? with
    | none => simp [counterAt, List.take_succ, hm]
    | some Q => rw [counterAt_succ Ps counter m Q hm]; exact Nat.le_add_right _ _

/-- The text of a lowered production: the header, the binding lines of the variables
allocated from `counter` on, the alternation line, the guard lines and a blank line. -/
theorem Production2DDL_text (index_name : Nat → String) (P : Production) (counter : Nat)
    (r : String × Nat) (h : Production2DDL index_name P counter = some r) :
    ∃ rendered g, toStringArgs (symbolicBounds P) = some rendered ∧
      guardText (symbolicBounds P) (freshVars index_name counter (symbolicBounds P).length)
        (allConjuncts P) = some g ∧
      r.1 = lhsText P.LHS ++ String.join (letLines index_name counter rendered)
        ++ disj_parsers (conjunctions P) ++ g ++ "\n\n" := by
  rw [Production2DDL_eq] at h
  by_cases hok : scanOK P = true
  · rw [if_pos hok] at h
    cases hr : toStringArgs (symbolicBounds P) with
    | none => rw [hr] at h; cases h
    | some rendered =>
      rw [hr] at h
      simp only [Option.some_bind] at h
      cases hg : guardText (symbolicBounds P)
          (freshVars index_name counter (symbolicBounds P).length) (allConjuncts P) with
      | none => rw [hg] at h; cases h
      | some g =>
        rw [hg] at h
        simp only [Option.map_some', Option.some.injEq] at h
        subst h
        exact ⟨rendered, g, rfl, rfl, rfl⟩
  · rw [if_neg hok] at h
    cases h

/-- C7: with the allocator one sequential counter that is never reset, in the document that
`dump` builds the block of the `k`-th production is the header, then one binding line
`let <variable> = <bound>` for each of its symbolic bounds, the `i`-th line binding the
variable allocated at the counter value reached after the earlier productions plus `i`, then
the alternation line and the guard lines. For an injective naming scheme the variables bound
by these lines are pairwise distinct across the whole document: two binding lines with the
same variable are the same line of the same block. Lowering one production advances the
counter by exactly its number of symbolic bounds, and the whole run by their total. -/
theorem dump_fresh_distinct (index_name : Nat → String)
    (hinj : Function.Injective index_name) (Ps : List Production) (counter : Nat)
    (CodeVec : List String) (counter' : Nat)
    (h : dump index_name Ps counter = some (CodeVec, counter')) :
    (∀ k P, Ps[k]? = some P →
      ∃ rendered g, RendersTo (symbolicBounds P) rendered ∧
        guardText (symbolicBounds P)
          (freshVars index_name (counterAt Ps counter k) (symbolicBounds P).length)
          (allConjuncts P) = some g ∧
        CodeVec[k + 1]? = some (lhsText P.LHS
          ++ String.join (letLines index_name (counterAt Ps counter k) rendered)
          ++ disj_parsers (conjunctions P) ++ g ++ "\n\n") ∧
        (letLines index_name (counterAt Ps counter k) rendered).length
          = (symbolicBounds P).length ∧
        ∀ i e, (symbolicBounds P)[i]? = some e → ∃ se, toString e = some se ∧
          (letLines index_name (counterAt Ps counter k) rendered)[i]?
            = some ("    let " ++ index_name (counterAt Ps counter k + i) ++ " = " ++ se
                ++ "\n")) ∧
    (∀ k k' P P' i i', Ps[k]? = some P → Ps[k']? = some P' →
      i < (symbolicBounds P).length → i' < (symbolicBounds P').length →
      index_name (counterAt Ps counter k + i) = index_name (counterAt Ps counter k' + i') →
      k = k' ∧ i = i') ∧
    counter' = counter + (Ps.map (fun P => (symbolicBounds P).length)).sum ∧
    (∀ P c r, Production2DDL index_name P c = some r →
      r.2 = c + (symbolicBounds P).length) := by
  obtain ⟨blocks, hb1, _, hb3⟩ := dumpLoop_blocks index_name Ps counter _ CodeVec counter' h
  subst hb1
  refine ⟨?_, ?_, (dumpLoop_fresh index_name Ps counter _ _ counter' h).1, ?_⟩
  · intro k P hk
    obtain ⟨r, h4, h5⟩ := hb3 k P hk
    obtain ⟨rendered, g, hr, hg, ht⟩ := Production2DDL_text index_name P _ r h4
    have hR : RendersTo (symbolicBounds P) rendered := rendersTo_of_toStringArgs hr
    refine ⟨rendered, g, hR, hg, ?_, ?_, ?_⟩
    · rw [← ht]; simpa using h5
    · rw [letLines_length]; exact (List.Forall₂.length_eq hR).symm
    · intro i e hi
      obtain ⟨se, h6, _, h7⟩ := letLines_getElem index_name hR (counterAt Ps counter k) i e hi
      exact ⟨se, h6, h7⟩
  · intro k k' P P' i i' hk hk' hi hi' he
    have e := hinj he
    rcases Nat.lt_trichotomy k k' with hlt | heq | hgt
    · have h1 := counterAt_succ Ps counter k P hk
      have h2 := counterAt_mono Ps counter (k + 1) k' hlt
      omega
    · subst heq
      exact ⟨rfl, by omega⟩
    · have h1 := counterAt_succ Ps counter k' P' hk'
      have h2 := counterAt_mono Ps counter (k' + 1) k hgt
      omega
  · intro P c r hr
    exact (Production2DDL_counter index_name P c r hr).1

theorem exampleUnaryName_injective : Function.Injective exampleUnaryName := by
  intro a b h
  have h' := congrArg String.length h
  simp [exampleUnaryName, String.length] at h'
  exact h'

theorem dump_fresh_distinct_witness :
    Function.Injective exampleUnaryName ∧
    dump exampleUnaryName
        [⟨0, [[.Interval (.SymbolicBound (exampleVar "x")) (.SymbolicBound (exampleVar "y"))],
              [.Interval (.ConstantBound 0) (.SymbolicBound (exampleVar "x"))]], []⟩,
         ⟨1, [[.Interval (.SymbolicBound (exampleVar "x")) (.ConstantBound 3)]], []⟩] 0
      = some ([GenHelperFunctionsInDDL,
          "def Main = \n  block\n    let len = Len\n    let i = x\n    let ii = y\n"
            ++ "    let iii = x\n    \n\n\n",
          "def L1 = \n  block\n    let len = Len\n    let iiii = x\n    \n\n\n"], 4) ∧
    exampleUnaryName (counterAt
        [⟨0, [[.Interval (.SymbolicBound (exampleVar "x")) (.SymbolicBound (exampleVar "y"))],
              [.Interval (.ConstantBound 0) (.SymbolicBound (exampleVar "x"))]], []⟩,
         ⟨1, [[.Interval (.SymbolicBound (exampleVar "x")) (.ConstantBound 3)]], []⟩] 0 0 + 2)
      ≠ exampleUnaryName (counterAt
        [⟨0, [[.Interval (.SymbolicBound (exampleVar "x")) (.SymbolicBound (exampleVar "y"))],
              [.Interval (.ConstantBound 0) (.SymbolicBound (exampleVar "x"))]], []⟩,
         ⟨1, [[.Interval (.SymbolicBound (exampleVar "x")) (.ConstantBound 3)]], []⟩] 0 1 + 0) ∧
    4 = 0 + (List.map (fun P => (symbolicBounds P).length)
        [⟨0, [[.Interval (.SymbolicBound (exampleVar "x")) (.SymbolicBound (exampleVar "y"))],
              [.Interval (.ConstantBound 0) (.SymbolicBound (exampleVar "x"))]], []⟩,
         ⟨1, [[.Interval (.SymbolicBound (exampleVar "x")) (.ConstantBound 3)]], []⟩]).sum :=
  have h : dump exampleUnaryName
        [⟨0, [[.Interval (.SymbolicBound (exampleVar "x")) (.SymbolicBound (exampleVar "y"))],
              [.Interval (.ConstantBound 0) (.SymbolicBound (exampleVar "x"))]], []⟩,
         ⟨1, [[.Interval (.SymbolicBound (exampleVar "x")) (.ConstantBound 3)]], []⟩] 0
      = some ([GenHelperFunctionsInDDL,
          "def Main = \n  block\n    let len = Len\n    let i = x\n    let ii = y\n"
            ++ "    let iii = x\n    \n\n\n",
          "def L1 = \n  block\n    let len = Len\n    let iiii = x\n    \n\n\n"], 4) := by
    have hA : Production2DDL exampleUnaryName
        ⟨0, [[.Interval (.SymbolicBound (exampleVar "x")) (.SymbolicBound (exampleVar "y"))],
              [.Interval (.ConstantBound 0) (.SymbolicBound (exampleVar "x"))]], []⟩ 0
        = some ("def Main = \n  block\n    let len = Len\n    let i = x\n    let ii = y\n"
            ++ "    let iii = x\n    \n\n\n", 3) := by decide
    have hB : Production2DDL exampleUnaryName
        ⟨1, [[.Interval (.SymbolicBound (exampleVar "x")) (.ConstantBound 3)]], []⟩ 3
        = some ("def L1 = \n  block\n    let len = Len\n    let iiii = x\n    \n\n\n", 4) := by
      decide
    simp only [dump, dumpLoop, hA, hB, Option.some_bind, List.cons_append, List.nil_append]
  have t := dump_fresh_distinct exampleUnaryName exampleUnaryName_injective _ 0 _ 4 h
  ⟨exampleUnaryName_injective, h,
   fun he => absurd (t.2.1 0 1 _ _ 2 0 rfl rfl (by decide) (by decide) he).1 (by decide),
   t.2.2.1⟩

/-! ### The alternation line -/

theorem conjLoop_eq (c : List Nat) (acc : String) :
    conjLoop c acc = acc ++ String.join (c.map (fun id => "L" ++ Nat.repr id ++ "; ")) := by
  induction c generalizing acc with
  | nil => simp [conjLoop, join_nil]
  | cons j rest ih => simp [conjLoop, ih, join_cons, String.append_assoc]

theorem disjLoop_eq_appendLoop (cs : List (List Nat)) (acc : String) :
    disjLoop cs acc = appendLoop " <| " (cs.map conjunctionText) acc := by
  induction cs generalizing acc with
  | nil => simp [disjLoop, appendLoop]
  | cons c rest ih =>
    have he : (rest.map conjunctionText).isEmpty = rest.isEmpty := by
      cases rest <;> rfl
    simp only [disjLoop, List.map_cons, appendLoop, ih, conjLoop_eq, conjunctionText, he,
      String.append_assoc]

/-- The alternation line that the loops build is the four blanks, the conjunction texts
joined by ` <| `, and a newline. -/
theorem disj_parsers_eq (cs : List (List Nat)) : disj_parsers cs = alternationLine cs := by
  simp [disj_parsers, alternationLine, disjLoop_eq_appendLoop, appendLoop_eq, space_four]

/-- C11: the definition text holds, after the header and the binding lines, the alternation
line: four blanks, then for each alternative with at least one production reference (in
alternative order) an opening brace, `L<id>; ` for each referenced id in item order
(repetitions kept) and a closing brace, joined by ` <| `, then a newline. An alternative
without production reference adds neither conjunction nor separator, and without any
conjunction the line is the four blanks and the newline. -/
theorem Production2DDL_alternation_line (index_name : Nat → String) (P : Production)
    (counter : Nat) (LHS : Nat) (alts₁ alts₂ : List (List RHSItem)) (Items : List RHSItem)
    (As : List Expr) :
    Production2DDL index_name P counter
      = (if scanOK P then
          (toStringArgs (symbolicBounds P)).bind (fun rendered =>
            (guardText (symbolicBounds P)
                (freshVars index_name counter (symbolicBounds P).length)
                (allConjuncts P)).map (fun g =>
              (lhsText P.LHS ++ String.join (letLines index_name counter rendered)
                ++ ("    " ++ " <| ".intercalate ((conjunctions P).map (fun c =>
                      "\x7b " ++ String.join (c.map (fun id => "L" ++ Nat.repr id ++ "; "))
                        ++ "\x7d")) ++ "\n")
                ++ g ++ "\n\n",
               counter + (symbolicBounds P).length)))
        else none) ∧
    conjunctions P
      = (P.RHS.map (fun Items => Items.flatMap itemRefs)).filter (fun c => !c.isEmpty) ∧
    (Items.flatMap itemRefs = [] →
      conjunctions ⟨LHS, alts₁ ++ [Items] ++ alts₂, As⟩
        = conjunctions ⟨LHS, alts₁ ++ alts₂, As⟩) ∧
    conjunctions ⟨LHS, [[.Production 3, .Interval (.ConstantBound 0) (.ConstantBound 1),
        .Production 3], [.Interval (.ConstantBound 2) (.ConstantBound 2)], [.Production 0]], As⟩
      = [[3, 3], [0]] ∧
    alternationLine [[3, 3], [0]] = "    \x7b L3; L3; \x7d <| \x7b L0; \x7d\n" ∧
    alternationLine [] = "    \n" := by
  refine ⟨?_, rfl, ?_, ?_, ?_, ?_⟩
  · rw [Production2DDL_eq, disj_parsers_eq]
    rfl
  · intro h
    simp [conjunctions, h, List.filter_cons]
  · simp [conjunctions, itemRefs, List.filter_cons]
  · decide
  · decide

/-! ### Names of referenced productions -/

/-- C12 at a reference to the entry production: a production whose alternative refers to
production `0` is lowered with the reference written `L0`, while the header of production
`0` declares the name `Main` (and `L0` is not `Main`); a reference to production `5` is
written `L5`, the name its header declares. -/
theorem Production2DDL_reference_to_entry :
    Production2DDL exampleName ⟨1, [[.Production 0, .Production 5]], []⟩ 0
      = some ("def L1 = \n  block\n    let len = Len\n    \x7b L0; L5; \x7d\n\n\n", 0) ∧
    Production2DDL exampleName ⟨0, [[.Production 1]], []⟩ 0
      = some ("def Main = \n  block\n    let len = Len\n    \x7b L1; \x7d\n\n\n", 0) ∧
    Production2DDL exampleName ⟨5, [], []⟩ 0
      = some ("def L5 = \n  block\n    let len = Len\n    \n\n\n", 0) ∧
    definitionName 0 = "Main" ∧ definitionName 5 = "L5" ∧
    conjunctionText [0, 5] = "\x7b L0; L5; \x7d" ∧
    "L" ++ Nat.repr 0 ≠ definitionName 0 := by
  refine ⟨by decide, by decide, by decide, by decide, by decide, by decide, by decide⟩

/-- For every id other than `0` the name written for a reference is the name the header
declares. -/
theorem reference_name_eq_definitionName (id : Nat) (h : id ≠ 0) :
    "L" ++ Nat.repr id = definitionName id := by
  simp [definitionName, h]

/-! ### The guard lines -/

theorem guardText_eq (Before After : List Expr) (cs : List Expr) :
    guardText Before After cs
      = (toStringArgs ((cs.filter (fun c => !is_true c)).map (substitute Before After))).map
          (fun rs => String.join (guardLinesOf rs)) := by
  induction cs with
  | nil => simp [guardText, toStringArgs, guardLinesOf, join_nil]
  | cons c rest ih =>
    simp only [guardText, guardLine, ih]
    by_cases ht : is_true c = true
    · simp only [ht, if_true, Option.some_bind, List.filter_cons, Bool.not_true]
      simp [Option.map_map, Function.comp_def]
    · simp only [ht, if_false, List.filter_cons, Bool.not_false, if_true,
        List.map_cons, toStringArgs, Bool.false_eq_true]
      cases toString (substitute Before After c) with
      | none => rfl
      | some s =>
        cases toStringArgs
            ((rest.filter (fun c => !is_true c)).map (substitute Before After)) with
        | none => rfl
        | some rs =>
          by_cases hs : s = ""
          · simp [hs, guardLinesOf, List.filter_cons]
          · simp [hs, guardLinesOf, List.filter_cons, join_cons]

/-- C13: when the scan accepts the production and the bound expressions and the substituted
conjuncts render, the definition text is the header, the binding lines, the alternation
line, then exactly one guard line `(` ++ text ++ `) is true` (on a new line, after four
blanks) for each top-level conjunct that is not the literal true and whose text after the
simultaneous substitution is not empty, in assertion order and within an assertion in
conjunct order, and finally a blank line. -/
theorem Production2DDL_guard_lines (index_name : Nat → String) (P : Production)
    (counter : Nat) (rendered rs : List String)
    (hok : scanOK P = true) (hr : RendersTo (symbolicBounds P) rendered)
    (hg : RendersTo
      (substitutedConjuncts (symbolicBounds P)
        (freshVars index_name counter (symbolicBounds P).length) P) rs) :
    Production2DDL index_name P counter
      = some (lhsText P.LHS ++ String.join (letLines index_name counter rendered)
          ++ disj_parsers (conjunctions P)
          ++ String.join ((rs.filter (fun s => s ≠ "")).map
              (fun s => "\n    (" ++ s ++ ") is true"))
          ++ "\n\n",
        counter + (symbolicBounds P).length) ∧
    substitutedConjuncts (symbolicBounds P)
        (freshVars index_name counter (symbolicBounds P).length) P
      = ((P.Assertions.flatMap (find_consecutive_ops .Z3_OP_AND)).filter
          (fun c => !is_true c)).map
          (substitute (symbolicBounds P)
            (freshVars index_name counter (symbolicBounds P).length)) := by
  refine ⟨?_, rfl⟩
  rw [Production2DDL_eq, if_pos hok, toStringArgs_of_rendersTo hr, guardText_eq]
  have h := toStringArgs_of_rendersTo hg
  simp only [substitutedConjuncts] at h
  simp only [Option.some_bind, h, Option.map_some', guardLinesOf]

theorem Production2DDL_guard_lines_witness :
    scanOK exampleGuarded = true ∧
    RendersTo (symbolicBounds exampleGuarded) ["x"] ∧
    RendersTo
      (substitutedConjuncts (symbolicBounds exampleGuarded)
        (freshVars exampleName 0 (symbolicBounds exampleGuarded).length) exampleGuarded)
      ["(ii0 <= y)", "", "(y < z)"] ∧
    Production2DDL exampleName exampleGuarded 0
      = some (lhsText exampleGuarded.LHS ++ String.join (letLines exampleName 0 ["x"])
          ++ disj_parsers (conjunctions exampleGuarded)
          ++ String.join ((["(ii0 <= y)", "", "(y < z)"].filter (fun s => s ≠ "")).map
              (fun s => "\n    (" ++ s ++ ") is true"))
          ++ "\n\n",
        0 + (symbolicBounds exampleGuarded).length) ∧
    Production2DDL exampleName exampleGuarded 0
      = some ("def L2 = \n  block\n    let len = Len\n    let ii0 = x\n    \x7b L4; \x7d\n"
          ++ "\n    ((ii0 <= y)) is true\n    ((y < z)) is true\n\n", 1) :=
  have hr : RendersTo (symbolicBounds exampleGuarded) ["x"] :=
    rendersTo_of_toStringArgs (by decide)
  have hg : RendersTo
      (substitutedConjuncts (symbolicBounds exampleGuarded)
        (freshVars exampleName 0 (symbolicBounds exampleGuarded).length) exampleGuarded)
      ["(ii0 <= y)", "", "(y < z)"] := rendersTo_of_toStringArgs (by decide)
  ⟨by decide, hr, hg,
   (Production2DDL_guard_lines exampleName exampleGuarded 0 _ _ (by decide) hr hg).1,
   by decide⟩

/-! ### The header and the definition names -/

theorem digitValue_digitChar (d : Nat) (h : d < 10) : digitValue (Nat.digitChar d) = d := by
  interval_cases d <;> decide

theorem decimalValue_toDigitsCore (fuel n : Nat) (ds : List Char) (h : n < fuel) :
    decimalValue (Nat.toDigitsCore 10 fuel n ds) = n * 10 ^ ds.length + decimalValue ds := by
  induction fuel generalizing n ds with
  | zero => omega
  | succ fuel ih =>
    have hd : digitValue (Nat.digitChar (n % 10)) = n % 10 :=
      digitValue_digitChar _ (Nat.mod_lt _ (by norm_num))
    simp only [Nat.toDigitsCore]
    by_cases hz : n / 10 = 0
    · simp only [hz, if_true, decimalValue, hd]
      have : n % 10 = n := by omega
      rw [this]
    · simp only [hz, if_false]
      have hlt : n / 10 < fuel := by omega
      rw [ih (n / 10) _ hlt]
      simp only [decimalValue, hd, List.length_cons, pow_succ]
      have e2 : n * 10 ^ ds.length = (10 * (n / 10) + n % 10) * 10 ^ ds.length := by
        rw [Nat.div_add_mod n 10]
      rw [e2]
      ring

/-- The decimal text of a number determines the number. -/
theorem Nat_repr_injective : Function.Injective Nat.repr := by
  intro a b h
  have h' : Nat.toDigits 10 a = Nat.toDigits 10 b := by
    have := congrArg String.data h
    simpa [Nat.repr, List.asString] using this
  have ha := decimalValue_toDigitsCore (a + 1) a [] (by omega)
  have hb := decimalValue_toDigitsCore (b + 1) b [] (by omega)
  simp only [List.length_nil, pow_zero, Nat.mul_one, decimalValue, Nat.add_zero] at ha hb
  unfold Nat.toDigits at h'
  rw [← ha, ← hb, h']

theorem definitionName_eq_Main (LHS : Nat) : definitionName LHS = "Main" ↔ LHS = 0 := by
  constructor
  · intro h
    by_contra h0
    simp only [definitionName, h0, if_false] at h
    have := congrArg String.data h
    simp at this
  · intro h
    simp [definitionName, h]

theorem definitionName_injective : Function.Injective definitionName := by
  intro a b h
  by_cases ha : a = 0
  · have hb := (definitionName_eq_Main b).mp
      (by rw [← h]; exact (definitionName_eq_Main a).mpr ha)
    rw [ha, hb]
  · by_cases hb : b = 0
    · exact absurd ((definitionName_eq_Main a).mp
        (by rw [h]; exact (definitionName_eq_Main b).mpr hb)) ha
    · simp only [definitionName, ha, hb, if_false] at h
      have hd := congrArg String.data h
      simp only [String.data_append, List.append_cancel_left_eq] at hd
      exact Nat_repr_injective (String.ext hd)

/-- C14: every text that `Production2DDL` returns starts with the header `def ` ++ name ++
` = `, newline, `block`, followed by the binding `let len = Len`, where the name is `Main`
if and only if the id is `0` and `L` followed by the decimal id otherwise; the name is an
injective function of the id. -/
theorem Production2DDL_header (index_name : Nat → String) (P : Production) (counter : Nat)
    (r : String × Nat) (h : Production2DDL index_name P counter = some r) :
    (∃ rest, r.1
      = "def " ++ definitionName P.LHS ++ " = \n  block\n    let len = Len\n" ++ rest) ∧
    (definitionName P.LHS = "Main" ↔ P.LHS = 0) ∧
    (P.LHS ≠ 0 → definitionName P.LHS = "L" ++ Nat.repr P.LHS) ∧
    Function.Injective definitionName := by
  refine ⟨?_, definitionName_eq_Main _, ?_, definitionName_injective⟩
  · rw [Production2DDL_eq] at h
    by_cases hok : scanOK P = true
    · rw [if_pos hok] at h
      cases hr : toStringArgs (symbolicBounds P) with
      | none => rw [hr] at h; cases h
      | some rendered =>
        rw [hr] at h
        simp only [Option.some_bind] at h
        cases hg : guardText (symbolicBounds P)
            (freshVars index_name counter (symbolicBounds P).length) (allConjuncts P) with
        | none => rw [hg] at h; cases h
        | some g =>
          rw [hg] at h
          simp only [Option.map_some', Option.some.injEq] at h
          subst h
          refine ⟨String.join (letLines index_name counter rendered)
            ++ disj_parsers (conjunctions P) ++ g ++ "\n\n", ?_⟩
          simp only [lhsText_eq, String.append_assoc]
    · rw [if_neg hok] at h
      cases h
  · intro h0
    simp [definitionName, h0]

theorem Production2DDL_header_witness :
    Production2DDL exampleName exampleGuarded 0
      = some ("def L2 = \n  block\n    let len = Len\n    let ii0 = x\n    \x7b L4; \x7d\n"
          ++ "\n    ((ii0 <= y)) is true\n    ((y < z)) is true\n\n", 1) ∧
    (∃ rest, "def L2 = \n  block\n    let len = Len\n    let ii0 = x\n    \x7b L4; \x7d\n"
          ++ "\n    ((ii0 <= y)) is true\n    ((y < z)) is true\n\n"
      = "def " ++ definitionName exampleGuarded.LHS ++ " = \n  block\n    let len = Len\n"
          ++ rest) ∧
    definitionName exampleGuarded.LHS = "L2" :=
  have h : Production2DDL exampleName exampleGuarded 0
      = some ("def L2 = \n  block\n    let len = Len\n    let ii0 = x\n    \x7b L4; \x7d\n"
          ++ "\n    ((ii0 <= y)) is true\n    ((y < z)) is true\n\n", 1) := by decide
  ⟨h, (Production2DDL_header exampleName exampleGuarded 0 _ h).1, by decide⟩

/-! ### Select, equality, extract and the generic fallback -/

theorem toString_select_eq (name : String) (params : List Param) (naming : Bool)
    (a i : Expr) (rest : List Expr) :
    toString (.app .Z3_OP_SELECT name params naming (a :: i :: rest))
      = match is_numeral_i64 i with
        | some Int64 => some ("(Select " ++ intToString Int64 ++ ")")
        | none =>
          match is_numeral_u64 i with
          | some Num64 => some ("(Select " ++ Nat.repr Num64 ++ ")")
          | none => (toString i).map (fun s => "(Select " ++ s ++ ")") := by
  conv_lhs => unfold toString

/-- C16: an equality node flagged as a naming equality renders as the empty text, whatever
its sides are; any other equality node with sides `lhs`, `rhs` renders as text of `lhs` ++
` == ` ++ text of `rhs` without parentheses around it; a distinct node renders as text of
`lhs` ++ ` != ` ++ text of `rhs`. -/
theorem toString_eq_distinct (name : String) (params : List Param) (naming : Bool)
    (args : List Expr) (lhs rhs : Expr) (rest : List Expr) (l r : String)
    (hl : toString lhs = some l) (hr : toString rhs = some r) :
    toString (.app .Z3_OP_EQ name params true args) = some "" ∧
    toString (.app .Z3_OP_EQ name params false (lhs :: rhs :: rest))
      = some (l ++ " == " ++ r) ∧
    toString (.app .Z3_OP_DISTINCT name params naming (lhs :: rhs :: rest))
      = some (l ++ " != " ++ r) := by
  refine ⟨toString_naming_eq _ _ _, ?_, ?_⟩
  · conv_lhs => unfold toString
    simp [is_naming_eq, hl, hr]
  · conv_lhs => unfold toString
    simp [hl, hr]

theorem toString_eq_distinct_witness :
    toString (exampleVar "x") = some "x" ∧
    toString (.numeral 5 "Int" []) = some "0x0000000000000005" ∧
    toString (.app .Z3_OP_EQ "=" [] true [exampleVar "x", exampleVar "field"]) = some "" ∧
    toString (.app .Z3_OP_EQ "=" [] false [exampleVar "x", .numeral 5 "Int" []])
      = some ("x" ++ " == " ++ "0x0000000000000005") ∧
    toString (.app .Z3_OP_DISTINCT "distinct" [] false [exampleVar "x", .numeral 5 "Int" []])
      = some ("x" ++ " != " ++ "0x0000000000000005") :=
  have hx : toString (exampleVar "x") = some "x" := by decide
  have h5 : toString (.numeral 5 "Int" []) = some "0x0000000000000005" := by decide
  have t := toString_eq_distinct "=" [] false [exampleVar "x", exampleVar "field"]
    (exampleVar "x") (.numeral 5 "Int" []) [] "x" "0x0000000000000005" hx h5
  ⟨hx, h5, t.1, t.2.1,
   (toString_eq_distinct "distinct" [] false [] (exampleVar "x") (.numeral 5 "Int" []) []
      "x" "0x0000000000000005" hx h5).2.2⟩

/-- The text of an extract node whose arguments render to `rs`. -/
theorem toString_extract_eq (name : String) (params : List Param) (naming : Bool)
    (args : List Expr) :
    toString (.app .Z3_OP_EXTRACT name params naming args)
      = (toStringArgs args).bind (fun r => toStringExtract params r) := by
  conv_lhs => unfold toString

/-- C17: an extract node with at least one argument or parameter, whose arguments render in
order to `rs`, renders as `(Extract ` ++ the argument texts and then the parameter texts,
in declared order, joined by single blanks ++ `)`, an integer parameter being written as
its decimal value and a parameter of any other kind as `?`; for the extraction of bits
`high .. low` of a value `v` this is `(Extract ` ++ text of `v` ++ blank ++ `high` ++ blank
++ `low` ++ `)`. -/
theorem toString_extract (name : String) (params : List Param) (naming : Bool)
    (args : List Expr) (rs : List String) (h : RendersTo args rs)
    (hne : 0 < args.length + params.length)
    (v : Expr) (sv : String) (high low : Int) (hv : toString v = some sv) :
    toString (.app .Z3_OP_EXTRACT name params naming args)
      = some ("(Extract " ++ " ".intercalate (rs ++ params.map paramToString) ++ ")") ∧
    toString (.app .Z3_OP_EXTRACT name [.Z3_PARAMETER_INT high, .Z3_PARAMETER_INT low]
        naming [v])
      = some ("(Extract " ++ sv ++ " " ++ intToString high ++ " " ++ intToString low ++ ")") ∧
    (∀ k, paramToString (.Z3_PARAMETER_INT k) = intToString k) ∧
    paramToString .Z3_PARAMETER_DOUBLE = "?" ∧ paramToString .Z3_PARAMETER_RATIONAL = "?" ∧
    paramToString .Z3_PARAMETER_SYMBOL = "?" ∧ paramToString .Z3_PARAMETER_SORT = "?" ∧
    paramToString .Z3_PARAMETER_AST = "?" ∧ paramToString .Z3_PARAMETER_FUNC_DECL = "?" := by
  have hlen : rs.length = args.length := (List.Forall₂.length_eq h).symm
  refine ⟨?_, ?_, fun _ => rfl, rfl, rfl, rfl, rfl, rfl, rfl⟩
  · rw [toString_extract_eq, toStringArgs_of_rendersTo h]
    have : params.length + rs.length > 0 := by omega
    simp only [Option.some_bind, toStringExtract, this, if_true, appendLoop_eq,
      String.append_assoc]
  · rw [toString_extract_eq]
    simp [toStringArgs, hv, toStringExtract, appendLoop_eq, paramToString,
      String.intercalate, String.intercalate.go, String.append_assoc]

theorem toString_extract_witness :
    RendersTo [exampleVar "x"] ["x"] ∧
    0 < [exampleVar "x"].length
        + [Param.Z3_PARAMETER_INT 15, Param.Z3_PARAMETER_INT 8].length ∧
    toString (exampleVar "x") = some "x" ∧
    toString (.app .Z3_OP_EXTRACT "extract" [.Z3_PARAMETER_INT 15, .Z3_PARAMETER_INT 8] false
        [exampleVar "x"])
      = some ("(Extract " ++ "x" ++ " " ++ intToString 15 ++ " " ++ intToString 8 ++ ")") ∧
    "(Extract " ++ "x" ++ " " ++ intToString 15 ++ " " ++ intToString 8 ++ ")"
      = "(Extract x 15 8)" :=
  have hx : toString (exampleVar "x") = some "x" := by decide
  have hr : RendersTo [exampleVar "x"] ["x"] := List.Forall₂.cons hx List.Forall₂.nil
  ⟨hr, by decide, hx,
   (toString_extract "extract" [.Z3_PARAMETER_INT 15, .Z3_PARAMETER_INT 8] false
      [exampleVar "x"] ["x"] hr (by decide) (exampleVar "x") "x" 15 8 hx).2.1,
   by decide⟩

/-- The text of a node of a kind that only reaches `default`, given its rendered
arguments. -/
theorem toString_default_eq (name : String) (params : List Param) (naming : Bool)
    (args : List Expr) (code : Nat) :
    toString (.app .Z3_OP_UNINTERPRETED name params naming args)
      = (toStringArgs args).map (fun r => toStringDefault name params r) ∧
    toString (.app (.other code) name params naming args)
      = (toStringArgs args).map (fun r => toStringDefault name params r) := by
  constructor
  · conv_lhs => unfold toString
  · conv_lhs => unfold toString

/-- A numeral that fits neither 64-bit type is rendered by the generic fallback. -/
theorem toString_numeral_wide (name : String) (params : List Param) (v : Int)
    (h : v < -(2 ^ 63) ∨ 2 ^ 64 ≤ v) :
    toString (.numeral v name params) = some (toStringDefault name params []) := by
  unfold toString
  have h1 : ¬ (0 ≤ v ∧ v < 2 ^ 64) := by omega
  have h2 : ¬ (-(2 ^ 63) ≤ v ∧ v < 2 ^ 63) := by omega
  simp only [is_numeral_u64, is_numeral_i64, if_neg h1, if_neg h2]

/-- C18: a node of a kind without a rule of its own (a plain variable, such as a fresh index
variable, a numeral that fits neither 64-bit type, or any other kind) renders as its
operator name alone when it has neither arguments nor parameters, and otherwise, its arguments rendering in order to `rs`, as the
name ++ `(` ++ the argument texts and then the parameter texts joined by `, ` ++ `)`, an
integer parameter written as its decimal value and any other parameter as `?`. -/
theorem toString_default (name : String) (params : List Param) (naming : Bool)
    (args : List Expr) (code : Nat) (rs : List String) (h : RendersTo args rs)
    (hne : 0 < args.length + params.length) (index_name : Nat → String) (counter : Nat) :
    (toString (.app .Z3_OP_UNINTERPRETED name [] naming []) = some name ∧
     toString (.app (.other code) name [] naming []) = some name ∧
     toString (index_var index_name counter) = some (index_name counter)) ∧
    (toString (.app .Z3_OP_UNINTERPRETED name params naming args)
        = some (name ++ "(" ++ ", ".intercalate (rs ++ params.map paramToString) ++ ")") ∧
     toString (.app (.other code) name params naming args)
        = some (name ++ "(" ++ ", ".intercalate (rs ++ params.map paramToString) ++ ")")) ∧
    (∀ v : Int, (v < -(2 ^ 63) ∨ 2 ^ 64 ≤ v) →
      toString (.numeral v name params) = some (toStringDefault name params [])) ∧
    (∀ k, paramToString (.Z3_PARAMETER_INT k) = intToString k) ∧
    paramToString .Z3_PARAMETER_DOUBLE = "?" ∧ paramToString .Z3_PARAMETER_RATIONAL = "?" ∧
    paramToString .Z3_PARAMETER_SYMBOL = "?" ∧ paramToString .Z3_PARAMETER_SORT = "?" ∧
    paramToString .Z3_PARAMETER_AST = "?" ∧ paramToString .Z3_PARAMETER_FUNC_DECL = "?" := by
  have hlen : rs.length = args.length := (List.Forall₂.length_eq h).symm
  have hpos : params.length + rs.length > 0 := by omega
  have hs := toStringArgs_of_rendersTo h
  refine ⟨⟨?_, ?_, toString_index_var _ _⟩, ⟨?_, ?_⟩, toString_numeral_wide name params,
    fun _ => rfl, rfl, rfl, rfl, rfl, rfl, rfl⟩
  · rw [(toString_default_eq name [] naming [] code).1]
    simp [toStringArgs, toStringDefault]
  · rw [(toString_default_eq name [] naming [] code).2]
    simp [toStringArgs, toStringDefault]
  · rw [(toString_default_eq name params naming args code).1, hs]
    simp only [Option.map_some', toStringDefault, hpos, if_true, appendLoop_eq,
      String.append_assoc]
  · rw [(toString_default_eq name params naming args code).2, hs]
    simp only [Option.map_some', toStringDefault, hpos, if_true, appendLoop_eq,
      String.append_assoc]

theorem toString_default_witness :
    RendersTo [exampleVar "x", .numeral 1 "Int" []] ["x", "0x0000000000000001"] ∧
    0 < [exampleVar "x", Expr.numeral 1 "Int" []].length
        + [Param.Z3_PARAMETER_INT 7, Param.Z3_PARAMETER_SORT].length ∧
    toString (.app .Z3_OP_UNINTERPRETED "f" [.Z3_PARAMETER_INT 7, .Z3_PARAMETER_SORT] false
        [exampleVar "x", .numeral 1 "Int" []])
      = some ("f" ++ "(" ++ ", ".intercalate (["x", "0x0000000000000001"]
          ++ [Param.Z3_PARAMETER_INT 7, Param.Z3_PARAMETER_SORT].map paramToString) ++ ")") ∧
    "f" ++ "(" ++ ", ".intercalate (["x", "0x0000000000000001"]
          ++ [Param.Z3_PARAMETER_INT 7, Param.Z3_PARAMETER_SORT].map paramToString) ++ ")"
      = "f(x, 0x0000000000000001, 7, ?)" :=
  have hr : RendersTo [exampleVar "x", .numeral 1 "Int" []] ["x", "0x0000000000000001"] :=
    rendersTo_of_toStringArgs (by decide)
  ⟨hr, by decide,
   (toString_default "f" [.Z3_PARAMETER_INT 7, .Z3_PARAMETER_SORT] false
      [exampleVar "x", .numeral 1 "Int" []] 0 _ hr (by decide) exampleName 0).2.1.1,
   by decide⟩

/-! ### Totality of the renderer -/

theorem toString_numeral_isSome (v : Int) (name : String) (params : List Param) :
    (toString (.numeral v name params)).isSome = true := by
  unfold toString
  cases is_numeral_u64 (.numeral v name params) with
  | some n => rfl
  | none =>
    cases is_numeral_i64 (.numeral v name params) with
    | none => rfl
    | some i =>
      by_cases h : i ≥ 0
      · simp only [h, if_true, Option.isSome_some]
      · simp only [h, if_false, Option.isSome_some]

theorem toStringArgs_cons_some {e : Expr} {es : List Expr} {rs : List String}
    (h : toStringArgs (e :: es) = some rs) :
    ∃ s ss, toString e = some s ∧ toStringArgs es = some ss ∧ rs = s :: ss := by
  have := rendersTo_of_toStringArgs h
  cases this with
  | cons h1 h2 => exact ⟨_, _, h1, toStringArgs_of_rendersTo h2, rfl⟩

theorem toString_app_isSome (kind : DeclKind) (name : String) (params : List Param)
    (naming : Bool) (args : List Expr) (rs cs : List String)
    (ha : arityOK kind params naming args = true)
    (hrs : toStringArgs args = some rs) (hcs : toStringConcat true args = some cs) :
    (toString (.app kind name params naming args)).isSome = true := by
  have hlen : rs.length = args.length :=
    (List.Forall₂.length_eq (rendersTo_of_toStringArgs hrs)).symm
  cases kind
  case Z3_OP_SELECT =>
    simp only [arityOK, decide_eq_true_eq] at ha
    match args, ha, hrs with
    | a :: i :: rest, _, hrs =>
      obtain ⟨_, _, _, h2, _⟩ := toStringArgs_cons_some hrs
      obtain ⟨si, _, h3, _, _⟩ := toStringArgs_cons_some h2
      rw [toString_select_eq]
      cases is_numeral_i64 i with
      | some v => rfl
      | none =>
        cases is_numeral_u64 i with
        | some n => rfl
        | none => simp only [h3, Option.map_some', Option.isSome_some]
  case Z3_OP_EQ =>
    cases naming with
    | true => rw [toString_naming_eq]; rfl
    | false =>
      simp only [arityOK, Bool.false_or, decide_eq_true_eq] at ha
      match args, ha, hrs with
      | a :: b :: rest, _, hrs =>
        obtain ⟨sa, _, h1, h2, _⟩ := toStringArgs_cons_some hrs
        obtain ⟨sb, _, h3, _, _⟩ := toStringArgs_cons_some h2
        rw [(toString_eq_distinct name params false [] a b rest sa sb h1 h3).2.1]
        rfl
  case Z3_OP_DISTINCT =>
    simp only [arityOK, decide_eq_true_eq] at ha
    match args, ha, hrs with
    | a :: b :: rest, _, hrs =>
      obtain ⟨sa, _, h1, h2, _⟩ := toStringArgs_cons_some hrs
      obtain ⟨sb, _, h3, _, _⟩ := toStringArgs_cons_some h2
      rw [(toString_eq_distinct name params naming [] a b rest sa sb h1 h3).2.2]
      rfl
  case Z3_OP_NOT =>
    simp only [arityOK, decide_eq_true_eq] at ha
    match args, ha, hrs with
    | a :: rest, _, hrs =>
      obtain ⟨sa, _, h1, _, _⟩ := toStringArgs_cons_some hrs
      unfold toString
      simp only [h1, Option.map_some', Option.isSome_some]
  case Z3_OP_UMINUS =>
    simp only [arityOK, decide_eq_true_eq] at ha
    match args, ha, hrs with
    | a :: rest, _, hrs =>
      obtain ⟨sa, _, h1, _, _⟩ := toStringArgs_cons_some hrs
      unfold toString
      simp only [h1, Option.map_some', Option.isSome_some]
  case Z3_OP_EXTRACT =>
    simp only [arityOK, decide_eq_true_eq] at ha
    have hpos : params.length + rs.length > 0 := by omega
    rw [toString_extract_eq, hrs]
    simp only [Option.some_bind, toStringExtract, hpos, if_true, Option.isSome_some]
  case Z3_OP_CONCAT =>
    unfold toString
    simp only [hcs, Option.map_some', Option.isSome_some]
  all_goals
    unfold toString
    simp only [hrs, Option.map_some', Option.isSome_some]

mutual
theorem toString_isSome : ∀ e : Expr, wellFormed e = true → (toString e).isSome = true
  | .numeral v name params => fun _ => toString_numeral_isSome v name params
  | .app kind name params naming args => fun h => by
    simp only [wellFormed, Bool.and_eq_true] at h
    obtain ⟨rs, hrs⟩ := Option.isSome_iff_exists.mp (toStringArgs_isSome args h.2)
    obtain ⟨cs, hcs⟩ := Option.isSome_iff_exists.mp (toStringConcat_isSome args true h.2)
    exact toString_app_isSome kind name params naming args rs cs h.1 hrs hcs
theorem toStringArgs_isSome :
    ∀ es : List Expr, wellFormedArgs es = true → (toStringArgs es).isSome = true
  | [] => fun _ => rfl
  | e :: es => fun h => by
    simp only [wellFormedArgs, Bool.and_eq_true] at h
    obtain ⟨s, hs⟩ := Option.isSome_iff_exists.mp (toString_isSome e h.1)
    obtain ⟨ss, hss⟩ := Option.isSome_iff_exists.mp (toStringArgs_isSome es h.2)
    simp only [toStringArgs, hs, hss, Option.map_some', Option.isSome_some]
theorem toStringConcat_isSome :
    ∀ (es : List Expr) (b : Bool), wellFormedArgs es = true →
      (toStringConcat b es).isSome = true
  | [], _ => fun _ => by simp [toStringConcat]
  | e :: es, b => fun h => by
    simp only [wellFormedArgs, Bool.and_eq_true] at h
    obtain ⟨s, hs⟩ := Option.isSome_iff_exists.mp (toString_isSome e h.1)
    obtain ⟨ss, hss⟩ := Option.isSome_iff_exists.mp (toStringConcat_isSome es false h.2)
    have hb := toStringConcat_isSome es b h.2
    simp only [toStringConcat]
    by_cases hz : (is_numeral_zero e && b) = true
    · simp only [hz, if_true, hb]
    · simp only [hz, if_false, hs, hss, Option.map_some', Option.isSome_some,
        Bool.false_eq_true]
end

theorem toStringArgs_fails (pre post : List Expr) (e : Expr) (h : toString e = none) :
    toStringArgs (pre ++ [e] ++ post) = none := by
  induction pre with
  | nil => simp [toStringArgs, h]
  | cons a rest ih =>
    show toStringArgs (a :: (rest ++ [e] ++ post)) = none
    simp only [toStringArgs, ih]
    cases toString a <;> rfl

/-- C19: the renderer returns a text for every well-formed expression, that is, for every
tree in which each node has the arguments its rule reads and which contains no extract node
without argument and parameter; and it is unreachable (no text) at an extract node without
argument and parameter, also when such a node is among the arguments it renders for an
operator. -/
theorem toString_total (e : Expr) (h : wellFormed e = true)
    (name : String) (naming : Bool) (pre post : List Expr)
    (oname : String) (oparams : List Param) (onaming : Bool) :
    (∃ s, toString e = some s) ∧
    toString (.app .Z3_OP_EXTRACT name [] naming []) = none ∧
    toStringArgs (pre ++ [.app .Z3_OP_EXTRACT name [] naming []] ++ post) = none ∧
    toString (.app .Z3_OP_ADD oname oparams onaming
      (pre ++ [.app .Z3_OP_EXTRACT name [] naming []] ++ post)) = none := by
  have he : toString (.app .Z3_OP_EXTRACT name [] naming []) = none := by
    rw [toString_extract_eq]
    rfl
  refine ⟨Option.isSome_iff_exists.mp (toString_isSome e h), he,
    toStringArgs_fails pre post _ he, ?_⟩
  conv_lhs => unfold toString
  rw [toStringArgs_fails pre post _ he]
  rfl

theorem toString_total_witness :
    wellFormed (.app .Z3_OP_LE "<=" [] false
        [.app .Z3_OP_SELECT "select" [] false [exampleVar "B", .numeral 2 "Int" []],
         .app .Z3_OP_EXTRACT "extract" [.Z3_PARAMETER_INT 7, .Z3_PARAMETER_INT 0] false
           [exampleVar "x"]]) = true ∧
    (∃ s, toString (.app .Z3_OP_LE "<=" [] false
        [.app .Z3_OP_SELECT "select" [] false [exampleVar "B", .numeral 2 "Int" []],
         .app .Z3_OP_EXTRACT "extract" [.Z3_PARAMETER_INT 7, .Z3_PARAMETER_INT 0] false
           [exampleVar "x"]]) = some s) ∧
    toString (.app .Z3_OP_LE "<=" [] false
        [.app .Z3_OP_SELECT "select" [] false [exampleVar "B", .numeral 2 "Int" []],
         .app .Z3_OP_EXTRACT "extract" [.Z3_PARAMETER_INT 7, .Z3_PARAMETER_INT 0] false
           [exampleVar "x"]]) = some "((Select 2) <= (Extract x 7 0))" :=
  ⟨by decide,
   (toString_total _ (by decide) "extract" false [] [] "+" [] false).1,
   by decide⟩

/-! ### Malformed productions -/

theorem malformedItem_not_ok (Item : RHSItem) (h : malformedItem Item = true) :
    itemOK Item = false := by
  cases Item with
  | Production LHS => simp [malformedItem] at h
  | other => rfl
  | Interval From To =>
    simp only [malformedItem] at h
    simp [itemOK, h]

theorem properItem_ok (Item : RHSItem) (h : properItem Item = true) : itemOK Item = true := by
  cases Item with
  | Production LHS => rfl
  | other => simp [properItem] at h
  | Interval From To =>
    cases From <;> cases To <;>
      simp [properItem, Bound.constantOrSymbolic] at h <;>
      simp [itemOK, Bound.isNull, Bound.isConstant, Bound.symbolic?]

/-- C20: a production with, anywhere in its alternatives, an item that is neither a
production reference nor an interval, or an interval with an unset `From` or `To` bound,
is not lowered: neither the scan nor `Production2DDL` returns anything, whatever comes
before or after the item. For a production in which every item is a production reference or
an interval with two set bounds, each constant or symbolic, the scan accepts every item
and returns its result as soon as the symbolic bound expressions render. -/
theorem Production2DDL_malformed (index_name : Nat → String) (P : Production)
    (counter : Nat) (Items : List RHSItem) (Item : RHSItem)
    (hI : Items ∈ P.RHS) (hIt : Item ∈ Items) (hbad : malformedItem Item = true)
    (Q : Production) (rendered : List String)
    (hQ : ∀ Items ∈ Q.RHS, ∀ Item ∈ Items, properItem Item = true)
    (hr : RendersTo (symbolicBounds Q) rendered) :
    (Production2DDL_scan index_name P counter = none ∧
     Production2DDL index_name P counter = none) ∧
    (scanOK Q = true ∧
     Production2DDL_scan index_name Q counter
      = some ({ counter := counter + (symbolicBounds Q).length
                code := lhsText Q.LHS ++ String.join (letLines index_name counter rendered)
                BeforeSubstitution := symbolicBounds Q
                AfterSubstitution :=
                  freshVars index_name counter (symbolicBounds Q).length },
              conjunctions Q)) := by
  have hP : scanOK P = false := by
    cases hs : scanOK P with
    | false => rfl
    | true =>
      simp only [scanOK, List.all_eq_true] at hs
      have := hs Items hI Item hIt
      rw [malformedItem_not_ok Item hbad] at this
      cases this
  have hQok : scanOK Q = true := by
    simp only [scanOK, List.all_eq_true]
    intro Items hI Item hIt
    exact properItem_ok Item (hQ Items hI Item hIt)
  refine ⟨⟨?_, ?_⟩, hQok, ?_⟩
  · rw [Production2DDL_scan_eq, hP]; rfl
  · rw [Production2DDL_eq, hP]; rfl
  · rw [Production2DDL_scan_eq, if_pos hQok, toStringArgs_of_rendersTo hr]; rfl

theorem Production2DDL_malformed_witness :
    [RHSItem.Production 2, .Interval (.ConstantBound 0) .nullptr]
      ∈ (Production.mk 1 [[.Interval (.SymbolicBound (exampleVar "x")) (.ConstantBound 3)],
          [.Production 2, .Interval (.ConstantBound 0) .nullptr], [.Production 4]] []).RHS ∧
    RHSItem.Interval (.ConstantBound 0) .nullptr
      ∈ [RHSItem.Production 2, .Interval (.ConstantBound 0) .nullptr] ∧
    malformedItem (.Interval (.ConstantBound 0) .nullptr) = true ∧
    (∀ Items ∈ exampleProduction.RHS, ∀ Item ∈ Items, properItem Item = true) ∧
    RendersTo (symbolicBounds exampleProduction) ["x", "y", "0x0000000000000009"] ∧
    Production2DDL exampleName
      (Production.mk 1 [[.Interval (.SymbolicBound (exampleVar "x")) (.ConstantBound 3)],
          [.Production 2, .Interval (.ConstantBound 0) .nullptr], [.Production 4]] []) 0
      = none ∧
    scanOK exampleProduction = true :=
  have hI : [RHSItem.Production 2, .Interval (.ConstantBound 0) .nullptr]
      ∈ (Production.mk 1 [[.Interval (.SymbolicBound (exampleVar "x")) (.ConstantBound 3)],
          [.Production 2, .Interval (.ConstantBound 0) .nullptr], [.Production 4]] []).RHS :=
    by simp
  have hIt : RHSItem.Interval (.ConstantBound 0) .nullptr
      ∈ [RHSItem.Production 2, .Interval (.ConstantBound 0) .nullptr] := by simp
  have hQ : ∀ Items ∈ exampleProduction.RHS, ∀ Item ∈ Items, properItem Item = true := by
    intro Items hI Item hIt
    simp only [exampleProduction, List.mem_cons, List.mem_singleton, List.not_mem_nil,
      or_false] at hI
    rcases hI with rfl | rfl
    · simp only [List.mem_cons, List.mem_singleton, List.not_mem_nil, or_false] at hIt
      rcases hIt with rfl | rfl <;> rfl
    · simp only [List.mem_cons, List.mem_singleton, List.not_mem_nil, or_false] at hIt
      subst hIt
      rfl
  have hr : RendersTo (symbolicBounds exampleProduction) ["x", "y", "0x0000000000000009"] :=
    rendersTo_of_toStringArgs (by decide)
  have t := Production2DDL_malformed exampleName _ 0 _ _ hI hIt (by decide)
    exampleProduction _ hQ hr
  ⟨hI, hIt, by decide, hQ, hr, t.1.2, t.2.1⟩

/-! ### The document -/

set_option maxRecDepth 100000 in
/-- The helper block is a constant text: the definitions of `Select`, `Len` and `Extract`. -/
theorem GenHelperFunctionsInDDL_eq :
    GenHelperFunctionsInDDL
      = "def Select (N : uint 64) =\n  block\n    let cur = GetStream\n"
        ++ "    let a = bytesOfStream cur\n    (Index a N) as uint 64\n\n"
        ++ "def Len =\n  block\n    let cur = GetStream\n"
        ++ "    let a = bytesOfStream cur\n    length a\n\n"
        ++ "def Extract (High : uint 64) (Low : uint 64) (N : uint 64) =\n  block\n"
        ++ "    let mask = (1 << (High - Low + 1)) - 1\n    (N >> Low) .&. mask\n\n" := by
  unfold GenHelperFunctionsInDDL
  rw [space_two, space_four]
  rfl

/-- C21: when `dump` lowers a list of productions, `CodeVec` is the fixed helper block (the
definitions of `Select`, `Len` and `Extract`, in that order, a constant text) followed by one
block per production: the block at position `k + 1` is the text `Production2DDL` returns for
the `k`-th production of the input (lowered with the allocator as the earlier productions
left it), so that there is exactly one more block than there are productions. -/
theorem dump_blocks (index_name : Nat → String) (Ps : List Production) (counter : Nat)
    (CodeVec : List String) (counter' : Nat)
    (h : dump index_name Ps counter = some (CodeVec, counter')) :
    CodeVec.length = Ps.length + 1 ∧
    CodeVec[0]? = some GenHelperFunctionsInDDL ∧
    (∀ k P, Ps[k]? = some P →
      ∃ r, Production2DDL index_name P (counterAt Ps counter k) = some r ∧
        CodeVec[k + 1]? = some r.1) ∧
    GenHelperFunctionsInDDL
      = "def Select (N : uint 64) =\n  block\n    let cur = GetStream\n"
        ++ "    let a = bytesOfStream cur\n    (Index a N) as uint 64\n\n"
        ++ "def Len =\n  block\n    let cur = GetStream\n"
        ++ "    let a = bytesOfStream cur\n    length a\n\n"
        ++ "def Extract (High : uint 64) (Low : uint 64) (N : uint 64) =\n  block\n"
        ++ "    let mask = (1 << (High - Low + 1)) - 1\n    (N >> Low) .&. mask\n\n" := by
  obtain ⟨blocks, h1, h2, h3⟩ := dumpLoop_blocks index_name Ps counter _ CodeVec counter' h
  subst h1
  refine ⟨by simp [h2], by simp, ?_, GenHelperFunctionsInDDL_eq⟩
  intro k P hk
  obtain ⟨r, h4, h5⟩ := h3 k P hk
  exact ⟨r, h4, by simpa using h5⟩

theorem dump_blocks_witness :
    dump exampleName [exampleProduction, exampleGuarded] 0
      = some ([GenHelperFunctionsInDDL,
          "def L1 = \n  block\n    let len = Len\n    let ii0 = x\n    let ii1 = y\n"
            ++ "    let ii2 = 0x0000000000000009\n    \x7b L2; \x7d\n\n\n",
          "def L2 = \n  block\n    let len = Len\n    let ii3 = x\n    \x7b L4; \x7d\n"
            ++ "\n    ((ii3 <= y)) is true\n    ((y < z)) is true\n\n"], 4) ∧
    [GenHelperFunctionsInDDL,
          "def L1 = \n  block\n    let len = Len\n    let ii0 = x\n    let ii1 = y\n"
            ++ "    let ii2 = 0x0000000000000009\n    \x7b L2; \x7d\n\n\n",
          "def L2 = \n  block\n    let len = Len\n    let ii3 = x\n    \x7b L4; \x7d\n"
            ++ "\n    ((ii3 <= y)) is true\n    ((y < z)) is true\n\n"].length
      = [exampleProduction, exampleGuarded].length + 1 ∧
    counterAt [exampleProduction, exampleGuarded] 0 1 = 3 :=
  have hA : Production2DDL exampleName exampleProduction 0
      = some ("def L1 = \n  block\n    let len = Len\n    let ii0 = x\n    let ii1 = y\n"
            ++ "    let ii2 = 0x0000000000000009\n    \x7b L2; \x7d\n\n\n", 3) := by decide
  have hB : Production2DDL exampleName exampleGuarded 3
      = some ("def L2 = \n  block\n    let len = Len\n    let ii3 = x\n    \x7b L4; \x7d\n"
            ++ "\n    ((ii3 <= y)) is true\n    ((y < z)) is true\n\n", 4) := by decide
  have h : dump exampleName [exampleProduction, exampleGuarded] 0
      = some ([GenHelperFunctionsInDDL,
          "def L1 = \n  block\n    let len = Len\n    let ii0 = x\n    let ii1 = y\n"
            ++ "    let ii2 = 0x0000000000000009\n    \x7b L2; \x7d\n\n\n",
          "def L2 = \n  block\n    let len = Len\n    let ii3 = x\n    \x7b L4; \x7d\n"
            ++ "\n    ((ii3 <= y)) is true\n    ((y < z)) is true\n\n"], 4) := by
    simp only [dump, dumpLoop, hA, hB, Option.some_bind, List.cons_append, List.nil_append]
  ⟨h, (dump_blocks exampleName _ 0 _ 4 h).1, by decide⟩

/-! ### Spellings of one operator -/

theorem map_toStringTemplate_eq (Op : String) (args : List Expr) :
    (toStringArgs args).map (fun r => toStringTemplate r Op) = templateText Op args := by
  simp only [templateText, toStringTemplate_eq]

/-- C22: the integer, signed-bitvector and unsigned-bitvector spellings of one operator
render to the same text, the parenthesized arguments joined by the operator, whatever the
name, parameters and flag of the node: add and bvadd with `+`, sub and bvsub with `-`, mul
and bvmul with `*`, the division kinds with `/`, the mod and rem kinds with `%`, the three
spellings of each comparison with `>=`, `<=`, `>`, `<`, and with `&&`, or with `||`. -/
theorem toString_operator_spellings (name : String) (params : List Param) (naming : Bool)
    (args : List Expr) :
    (∀ k ∈ [DeclKind.Z3_OP_ADD, .Z3_OP_BADD],
      toString (.app k name params naming args) = templateText "+" args) ∧
    (∀ k ∈ [DeclKind.Z3_OP_SUB, .Z3_OP_BSUB],
      toString (.app k name params naming args) = templateText "-" args) ∧
    (∀ k ∈ [DeclKind.Z3_OP_MUL, .Z3_OP_BMUL],
      toString (.app k name params naming args) = templateText "*" args) ∧
    (∀ k ∈ [DeclKind.Z3_OP_DIV, .Z3_OP_BSDIV_I, .Z3_OP_BSDIV, .Z3_OP_BUDIV_I, .Z3_OP_BUDIV],
      toString (.app k name params naming args) = templateText "/" args) ∧
    (∀ k ∈ [DeclKind.Z3_OP_MOD, .Z3_OP_REM, .Z3_OP_BSMOD, .Z3_OP_BSMOD_I, .Z3_OP_BSREM,
        .Z3_OP_BSREM_I, .Z3_OP_BUREM, .Z3_OP_BUREM_I],
      toString (.app k name params naming args) = templateText "%" args) ∧
    (∀ k ∈ [DeclKind.Z3_OP_GE, .Z3_OP_SGEQ, .Z3_OP_UGEQ],
      toString (.app k name params naming args) = templateText ">=" args) ∧
    (∀ k ∈ [DeclKind.Z3_OP_LE, .Z3_OP_SLEQ, .Z3_OP_ULEQ],
      toString (.app k name params naming args) = templateText "<=" args) ∧
    (∀ k ∈ [DeclKind.Z3_OP_GT, .Z3_OP_SGT, .Z3_OP_UGT],
      toString (.app k name params naming args) = templateText ">" args) ∧
    (∀ k ∈ [DeclKind.Z3_OP_LT, .Z3_OP_SLT, .Z3_OP_ULT],
      toString (.app k name params naming args) = templateText "<" args) ∧
    toString (.app .Z3_OP_AND name params naming args) = templateText "&&" args ∧
    toString (.app .Z3_OP_OR name params naming args) = templateText "||" args ∧
    (∀ Op, templateText Op args
      = (toStringArgs args).map (fun rs => "(" ++ (" " ++ Op ++ " ").intercalate rs ++ ")"))
    := by
  refine ⟨?_, ?_, ?_, ?_, ?_, ?_, ?_, ?_, ?_, ?_, ?_, fun _ => rfl⟩
  · intro k hk
    simp only [List.mem_cons, List.mem_singleton, List.not_mem_nil, or_false] at hk
    rcases hk with rfl | rfl
    all_goals (conv_lhs => unfold toString); exact map_toStringTemplate_eq _ _
  · intro k hk
    simp only [List.mem_cons, List.mem_singleton, List.not_mem_nil, or_false] at hk
    rcases hk with rfl | rfl
    all_goals (conv_lhs => unfold toString); exact map_toStringTemplate_eq _ _
  · intro k hk
    simp only [List.mem_cons, List.mem_singleton, List.not_mem_nil, or_false] at hk
    rcases hk with rfl | rfl
    all_goals (conv_lhs => unfold toString); exact map_toStringTemplate_eq _ _
  · intro k hk
    simp only [List.mem_cons, List.mem_singleton, List.not_mem_nil, or_false] at hk
    rcases hk with rfl | rfl | rfl | rfl | rfl
    all_goals (conv_lhs => unfold toString); exact map_toStringTemplate_eq _ _
  · intro k hk
    simp only [List.mem_cons, List.mem_singleton, List.not_mem_nil, or_false] at hk
    rcases hk with rfl | rfl | rfl | rfl | rfl | rfl | rfl | rfl
    all_goals (conv_lhs => unfold toString); exact map_toStringTemplate_eq _ _
  · intro k hk
    simp only [List.mem_cons, List.mem_singleton, List.not_mem_nil, or_false] at hk
    rcases hk with rfl | rfl | rfl
    all_goals (conv_lhs => unfold toString); exact map_toStringTemplate_eq _ _
  · intro k hk
    simp only [List.mem_cons, List.mem_singleton, List.not_mem_nil, or_false] at hk
    rcases hk with rfl | rfl | rfl
    all_goals (conv_lhs => unfold toString); exact map_toStringTemplate_eq _ _
  · intro k hk
    simp only [List.mem_cons, List.mem_singleton, List.not_mem_nil, or_false] at hk
    rcases hk with rfl | rfl | rfl
    all_goals (conv_lhs => unfold toString); exact map_toStringTemplate_eq _ _
  · intro k hk
    simp only [List.mem_cons, List.mem_singleton, List.not_mem_nil, or_false] at hk
    rcases hk with rfl | rfl | rfl
    all_goals (conv_lhs => unfold toString); exact map_toStringTemplate_eq _ _
  · (conv_lhs => unfold toString); exact map_toStringTemplate_eq _ _
  · (conv_lhs => unfold toString); exact map_toStringTemplate_eq _ _

/-! ### A naming equality below another operator -/

/-- C24: the extract of bits 7..0 of the variable `x` is rendered with the value first,
`(Extract x 7 0)`, and not as `(Extract 7 0 x)`: `toStringExtract` writes the arguments
before the parameters, while the helper block declares `Extract` with the parameters
`High`, `Low`, `N` in that order. -/
theorem toString_extract_operand_order :
    toString (.app .Z3_OP_EXTRACT "extract" [.Z3_PARAMETER_INT 7, .Z3_PARAMETER_INT 0] false
        [exampleVar "x"]) = some "(Extract x 7 0)" ∧
    toString (.app .Z3_OP_EXTRACT "extract" [.Z3_PARAMETER_INT 7, .Z3_PARAMETER_INT 0] false
        [exampleVar "x"]) ≠ some "(Extract 7 0 x)" ∧
    toStringExtract [.Z3_PARAMETER_INT 7, .Z3_PARAMETER_INT 0] ["x"]
      = some "(Extract x 7 0)" ∧
    GenHelperFunctionsInDDL
      = "def Select (N : uint 64) =\n  block\n    let cur = GetStream\n"
        ++ "    let a = bytesOfStream cur\n    (Index a N) as uint 64\n\n"
        ++ "def Len =\n  block\n    let cur = GetStream\n"
        ++ "    let a = bytesOfStream cur\n    length a\n\n"
        ++ "def Extract (High : uint 64) (Low : uint 64) (N : uint 64) =\n  block\n"
        ++ "    let mask = (1 << (High - Low + 1)) - 1\n    (N >> Low) .&. mask\n\n" :=
  have h : toString (.app .Z3_OP_EXTRACT "extract" [.Z3_PARAMETER_INT 7, .Z3_PARAMETER_INT 0]
      false [exampleVar "x"]) = some "(Extract x 7 0)" := by decide
  ⟨h, by rw [h]; decide, by decide, GenHelperFunctionsInDDL_eq⟩

end DDLLang
